import Mathlib

/-!
Verification of the temporal task scheduler in rodrigoricky/hd-application.

The development shallowly embeds the two scheduler subsystems of the
repository:

* `Code1` models `src/code1.js` (RemindBot): `TimeParser.parse`,
  `calculateTimeToday`/`calculateTimeTomorrow`, and the `ReminderManager`
  store (`create`, `delete`, `list`, `check`, `save`).
* `Code3` models `src/code3.js` (ScheduleBot): `TimeParser.parse`,
  `parseTime`, `getNextDailyRun`, `getNextWeeklyRun`, `getTodayAt`,
  `getTomorrowAt`, and the `ScheduleManager` store (`create`, `delete`,
  `list`, `check`, `processMessage`, `save`).

Timestamps are epoch milliseconds modelled as `Nat`; JavaScript local-time
`Date` arithmetic is modelled with a uniform 86400000 ms day (the bots run
with a fixed/unused timezone configuration, and daylight-saving drift is an
accepted approximation per the design notes).  The regular expressions of
the sources are translated into explicit character-list matchers with the
same backtracking behaviour on the grammar they define.  JavaScript `Map`
objects are modelled as insertion-ordered lists of records keyed by `id`;
`Map<string, Set<number>>` secondary indexes are modelled as total
functions `String → List Nat` (absent key = empty set, as produced by the
`|| new Set()` defaulting in the sources).  Persistence (`fs.writeFile`)
is modelled by a boolean outcome parameter threaded into every mutating
operation; delivery (`channel.send`) by a per-task boolean oracle.
-/

set_option maxRecDepth 4000

namespace HD

/-! ## Characters, whitespace and digits -/

/-- JavaScript `\s`-style whitespace (the characters relevant here). -/
def isWs (c : Char) : Bool :=
  c = ' ' ∨ c = '\t' ∨ c = '\n' ∨ c = '\r'

/-- Drop leading whitespace (the `\s*` fragment). -/
def dropWs : List Char → List Char
  | [] => []
  | c :: r => if isWs c then dropWs r else c :: r

/-- Require at least one whitespace character, then drop the run
(the `\s+` fragment). -/
def ws1 : List Char → Option (List Char)
  | [] => none
  | c :: r => if isWs c then some (dropWs r) else none

/-- `input.trim().toLowerCase()` as both sources normalise their input:
lower-case every character, strip trailing whitespace (via a reverse),
then strip leading whitespace. -/
def clean (input : String) : List Char :=
  (dropWs (((dropWs ((input.data.map Char.toLower).reverse))).reverse))

/-- Numeric value of a decimal digit character. -/
def digitVal (c : Char) : Nat := c.toNat - 48

/-- Split a maximal run of leading digits from the rest. -/
def takeDigits : List Char → List Char × List Char
  | [] => ([], [])
  | c :: r =>
    if c.isDigit then
      let p := takeDigits r
      (c :: p.1, p.2)
    else ([], c :: r)

/-- `parseInt` on a digit run. -/
def digitsToNat (ds : List Char) : Nat :=
  ds.foldl (fun a c => a * 10 + digitVal c) 0

/-- The `(\d+)` capture group: at least one digit, greedy. -/
def matchNum (s : List Char) : Option (Nat × List Char) :=
  match takeDigits s with
  | ([], _) => none
  | (ds, rest) => some (digitsToNat ds, rest)

/-- The `(\d{1,2})` capture group: one or two digits, greedy. -/
def digits12 : List Char → Option (Nat × List Char)
  | [] => none
  | c1 :: r =>
    if c1.isDigit then
      match r with
      | c2 :: r2 =>
        if c2.isDigit then some (digitVal c1 * 10 + digitVal c2, r2)
        else some (digitVal c1, r)
      | [] => some (digitVal c1, [])
    else none

/-- The `(\d{2})` capture group: exactly two digits. -/
def twoDigits : List Char → Option (Nat × List Char)
  | c1 :: c2 :: r =>
    if c1.isDigit && c2.isDigit then some (digitVal c1 * 10 + digitVal c2, r)
    else none
  | _ => none

/-- Match a literal word at the head of the input. -/
def word (w : List Char) (s : List Char) : Option (List Char) :=
  if w.isPrefixOf s then some (s.drop w.length) else none

/-! ## Shared time-of-day grammar fragment -/

/-- An `am`/`pm` meridiem capture. -/
inductive Mer
  | am
  | pm
  deriving DecidableEq, Repr

/-- The `\s*(am|pm)?$` tail of the clock patterns: after optional
whitespace the input must be empty, `am`, or `pm`. -/
def merTail (s : List Char) : Option (Option Mer) :=
  let r := dropWs s
  if r = [] then some none
  else if r = ['a', 'm'] then some (some Mer.am)
  else if r = ['p', 'm'] then some (some Mer.pm)
  else none

/-- The clock fragment `(\d{1,2})(?::(\d{2}))?\s*(am|pm)?$` shared by the
time patterns of both parsers.  Returns hour, optional minute, optional
meridiem. -/
def clockEnd (s : List Char) : Option (Nat × Option Nat × Option Mer) :=
  match digits12 s with
  | none => none
  | some (h, r1) =>
    match r1 with
    | ':' :: rr =>
      (match twoDigits rr with
       | some (m, r2) => (merTail r2).map fun mer => (h, some m, mer)
       | none => none)
    | _ => (merTail r1).map fun mer => (h, none, mer)

/-! ## Day arithmetic (uniform-day model of the local-time `Date` calls) -/

/-- Midnight of the current day: what `new Date(y, m, d, 0, 0, 0, 0)`
denotes for the components of `now`. -/
def dayStart (now : Nat) : Nat := now - now % 86400000

/-- `Date.prototype.getDay` (0 = Sunday): the Unix epoch day was a
Thursday. -/
def getDay (now : Nat) : Nat := (now / 86400000 + 4) % 7

/-- `Date.prototype.getHours`. -/
def getHours (now : Nat) : Nat := now % 86400000 / 3600000

/-! ## Error codes

Every error thrown by the two subsystems, by its `code` field
(`ReminderError` in code1, `ScheduleError` in code3) or origin
(`ioError` stands for an `fs.writeFile` rejection).  Note that the
sources define no `INVALID_TIME` code. -/

inductive Err
  | parseFailed
  | invalidFormat
  | limitReached
  | notFound
  | unauthorized
  | ioError
  deriving DecidableEq, Repr

/-- Outcome of one `fs.writeFile` call, driven by the oracle flag. -/
def saveResult (saveOk : Bool) : Except Err Unit :=
  if saveOk then .ok () else .error .ioError

/-! ## `src/code3.js` — ScheduleBot -/

namespace Code3

/-- Result of `TimeParser.parseTime`: an hour/minute pair.  The source
performs no range validation, so `hour` may exceed 23 (e.g. input
`25:00`). -/
structure TimeOfDay where
  hour : Nat
  minute : Nat
  deriving DecidableEq, Repr

/-- The `interval` field of a recurring schedule: `'daily'` or
`'weekly'`. -/
inductive IKind
  | daily
  | weekly
  deriving DecidableEq, Repr

/-- The `type` field of a schedule: `'once'`, `'recurring'` or
`'interval'`. -/
inductive SType
  | once
  | recurring
  | interval
  deriving DecidableEq, Repr

/-- `TimeParser.parseTime(hour, minute, meridiem)`: 12-hour to 24-hour
conversion with the noon/midnight special cases. -/
def parseTime (hour minute : Nat) (meridiem : Option Mer) : TimeOfDay :=
  let h :=
    match meridiem with
    | some Mer.pm => if hour ≠ 12 then hour + 12 else hour
    | some Mer.am => if hour = 12 then 0 else hour
    | none => hour
  ⟨h, minute⟩

/-- `new Date(y, m, d + dayOff, t.hour, t.minute, 0, 0).getTime()` for the
date components of `now` (uniform-day model; an hour ≥ 24 simply rolls
into later days, which is exactly what the `Date` constructor does). -/
def timeAt (now : Nat) (dayOff : Nat) (t : TimeOfDay) : Nat :=
  dayStart now + dayOff * 86400000 + t.hour * 3600000 + t.minute * 60000

/-- `TimeParser.getNextDailyRun`. -/
def getNextDailyRun (now : Nat) (t : TimeOfDay) : Nat :=
  let next := timeAt now 0 t
  if next ≤ now then next + 86400000 else next

/-- `TimeParser.getNextWeeklyRun` for a target day index
(`days.indexOf(dayName)`, Sunday = 0).  Note the source compares only
`now.getHours() >= time.hour`, ignoring minutes. -/
def getNextWeeklyRun (now : Nat) (targetDay : Nat) (t : TimeOfDay) : Nat :=
  let currentDay := getDay now
  let daysUntil : Int := (targetDay : Int) - (currentDay : Int)
  let daysUntil2 : Int :=
    if daysUntil < 0 ∨ (daysUntil = 0 ∧ t.hour ≤ getHours now) then daysUntil + 7
    else daysUntil
  timeAt now daysUntil2.toNat t

/-- `TimeParser.getTodayAt`. -/
def getTodayAt (now : Nat) (t : TimeOfDay) : Nat := timeAt now 0 t

/-- `TimeParser.getTomorrowAt`. -/
def getTomorrowAt (now : Nat) (t : TimeOfDay) : Nat := timeAt now 1 t

/-- The object returned by `TimeParser.parse` (field-presence polymorphic
in the source; absent fields are `none`). -/
structure Plan where
  type : SType
  interval : Option IKind := none
  day : Option Nat := none
  time : Option TimeOfDay := none
  intervalMs : Option Nat := none
  nextRun : Nat
  deriving DecidableEq, Repr

/-- `/^daily\s+(?:at\s+)?(\d{1,2})(?::(\d{2}))?\s*(am|pm)?$/i` -/
def matchDaily (s : List Char) : Option (Nat × Option Nat × Option Mer) :=
  match word ['d', 'a', 'i', 'l', 'y'] s with
  | none => none
  | some r0 =>
    match ws1 r0 with
    | none => none
    | some r1 =>
      let r2 :=
        match word ['a', 't'] r1 with
        | some ra =>
          match ws1 ra with
          | some rb => rb
          | none => r1
        | none => r1
      clockEnd r2

/-- The weekday alternation of the weekly pattern, in source order, with
the index each name has in the `days` array of `getNextWeeklyRun`
(Sunday = 0). -/
def weekdayAlts : List (List Char × Nat) :=
  [ (['m', 'o', 'n', 'd', 'a', 'y'], 1)
  , (['t', 'u', 'e', 's', 'd', 'a', 'y'], 2)
  , (['w', 'e', 'd', 'n', 'e', 's', 'd', 'a', 'y'], 3)
  , (['t', 'h', 'u', 'r', 's', 'd', 'a', 'y'], 4)
  , (['f', 'r', 'i', 'd', 'a', 'y'], 5)
  , (['s', 'a', 't', 'u', 'r', 'd', 'a', 'y'], 6)
  , (['s', 'u', 'n', 'd', 'a', 'y'], 0) ]

/-- Try the weekday alternatives in order. -/
def matchWeekday : List (List Char × Nat) → List Char → Option (Nat × List Char)
  | [], _ => none
  | (w, idx) :: rest, s =>
    match word w s with
    | some r => some (idx, r)
    | none => matchWeekday rest s

/-- `/^weekly\s+(monday|...|sunday)\s+(\d{1,2})(?::(\d{2}))?\s*(am|pm)?$/i` -/
def matchWeekly (s : List Char) : Option (Nat × Nat × Option Nat × Option Mer) :=
  match word ['w', 'e', 'e', 'k', 'l', 'y'] s with
  | none => none
  | some r0 =>
    match ws1 r0 with
    | none => none
    | some r1 =>
      match matchWeekday weekdayAlts r1 with
      | none => none
      | some (d, r2) =>
        match ws1 r2 with
        | none => none
        | some r3 => (clockEnd r3).map fun c => (d, c)

/-- `/^tomorrow\s+(\d{1,2})(?::(\d{2}))?\s*(am|pm)?$/i` -/
def matchTomorrow (s : List Char) : Option (Nat × Option Nat × Option Mer) :=
  match word ['t', 'o', 'm', 'o', 'r', 'r', 'o', 'w'] s with
  | none => none
  | some r0 =>
    match ws1 r0 with
    | none => none
    | some r1 => clockEnd r1

/-- `/^today\s+(\d{1,2})(?::(\d{2}))?\s*(am|pm)?$/i` -/
def matchToday (s : List Char) : Option (Nat × Option Nat × Option Mer) :=
  match word ['t', 'o', 'd', 'a', 'y'] s with
  | none => none
  | some r0 =>
    match ws1 r0 with
    | none => none
    | some r1 => clockEnd r1

/-- The `(hour|hours|minute|minutes)$` alternation of the interval
pattern, tried in source order; each alternative must consume the whole
remaining input.  Returns the per-unit milliseconds
(`unit.startsWith('hour') ? 3600000 : 60000`). -/
def matchIntervalUnit (s : List Char) : Option Nat :=
  if word ['h', 'o', 'u', 'r'] s = some [] then some 3600000
  else if word ['h', 'o', 'u', 'r', 's'] s = some [] then some 3600000
  else if word ['m', 'i', 'n', 'u', 't', 'e'] s = some [] then some 60000
  else if word ['m', 'i', 'n', 'u', 't', 'e', 's'] s = some [] then some 60000
  else none

/-- `/^every\s+(\d+)\s+(hour|hours|minute|minutes)$/i` returning the
computed `ms` value. -/
def matchInterval (s : List Char) : Option Nat :=
  match word ['e', 'v', 'e', 'r', 'y'] s with
  | none => none
  | some r0 =>
    match ws1 r0 with
    | none => none
    | some r1 =>
      match matchNum r1 with
      | none => none
      | some (amount, r2) =>
        match ws1 r2 with
        | none => none
        | some r3 => (matchIntervalUnit r3).map fun unitMs => amount * unitMs

/-- `TimeParser.parse` of code3: patterns tried in source order (daily,
weekly, tomorrow, today, interval); otherwise
`ScheduleError('INVALID_FORMAT')`. -/
def parse (now : Nat) (input : String) : Except Err Plan :=
  let s := clean input
  match matchDaily s with
  | some (h, mo, mer) =>
    let time := parseTime h (mo.getD 0) mer
    .ok { type := .recurring, interval := some .daily, time := some time,
          nextRun := getNextDailyRun now time }
  | none =>
  match matchWeekly s with
  | some (d, h, mo, mer) =>
    let time := parseTime h (mo.getD 0) mer
    .ok { type := .recurring, interval := some .weekly, day := some d,
          time := some time, nextRun := getNextWeeklyRun now d time }
  | none =>
  match matchTomorrow s with
  | some (h, mo, mer) =>
    let time := parseTime h (mo.getD 0) mer
    .ok { type := .once, nextRun := getTomorrowAt now time }
  | none =>
  match matchToday s with
  | some (h, mo, mer) =>
    let time := parseTime h (mo.getD 0) mer
    let nextRun := getTodayAt now time
    let nextRun := if nextRun < now then getTomorrowAt now time else nextRun
    .ok { type := .once, nextRun := nextRun }
  | none =>
  match matchInterval s with
  | some ms => .ok { type := .interval, intervalMs := some ms, nextRun := now + ms }
  | none => .error .invalidFormat

end Code3

/-! ## `src/code1.js` — RemindBot parser -/

namespace Code1

/-- The object returned by code1's `TimeParser.parse`: a timestamp, an
optional recurrence interval in milliseconds, and the recurrence flag. -/
structure Plan where
  timestamp : Nat
  interval : Option Nat
  isRecurring : Bool
  deriving DecidableEq, Repr

/-- `calculateTimeToday(hour, minute, meridiem)`: 12h → 24h adjustment
(noon/midnight special cases), then today's date at that time. -/
def calculateTimeToday (now hour minute : Nat) (meridiem : Option Mer) : Nat :=
  let adjustedHour :=
    match meridiem with
    | some Mer.pm => if hour ≠ 12 then hour + 12 else hour
    | some Mer.am => if hour = 12 then 0 else hour
    | none => hour
  dayStart now + adjustedHour * 3600000 + minute * 60000

/-- `calculateTimeTomorrow`: same plus 86400000. -/
def calculateTimeTomorrow (now hour minute : Nat) (meridiem : Option Mer) : Nat :=
  calculateTimeToday now hour minute meridiem + 86400000

/-- The unit alternation of the `relative` pattern
`(second|sec|s|minute|min|m|hour|hr|h|day|d|week|w)s?$`, in source order,
each alternative mapped through `this.multipliers`; after the unit an
optional `s` must end the input. -/
def relUnits : List (List Char × Nat) :=
  [ (['s', 'e', 'c', 'o', 'n', 'd'], 1000)
  , (['s', 'e', 'c'], 1000)
  , (['s'], 1000)
  , (['m', 'i', 'n', 'u', 't', 'e'], 60000)
  , (['m', 'i', 'n'], 60000)
  , (['m'], 60000)
  , (['h', 'o', 'u', 'r'], 3600000)
  , (['h', 'r'], 3600000)
  , (['h'], 3600000)
  , (['d', 'a', 'y'], 86400000)
  , (['d'], 86400000)
  , (['w', 'e', 'e', 'k'], 604800000)
  , (['w'], 604800000) ]

/-- Try unit alternatives in order; the continuation `s?$` accepts a
leftover of `[]` or `['s']` (falling through to the next alternative on
failure, as regex backtracking does). -/
def unitEndS : List (List Char × Nat) → List Char → Option Nat
  | [], _ => none
  | (w, ms) :: rest, s =>
    match word w s with
    | some l => if l = [] ∨ l = ['s'] then some ms else unitEndS rest s
    | none => unitEndS rest s

/-- `/^in\s+(\d+)\s*(second|sec|s|...)s?$/i` returning
`amount * multiplier`. -/
def matchRelative (s : List Char) : Option Nat :=
  match word ['i', 'n'] s with
  | none => none
  | some r0 =>
    match ws1 r0 with
    | none => none
    | some r1 =>
      match matchNum r1 with
      | none => none
      | some (amount, r2) =>
        (unitEndS relUnits (dropWs r2)).map fun ms => amount * ms

/-- The recurring units `(second|minute|hour|day|week)` with their
multipliers, in source order. -/
def recUnits : List (List Char × Nat) :=
  [ (['s', 'e', 'c', 'o', 'n', 'd'], 1000)
  , (['m', 'i', 'n', 'u', 't', 'e'], 60000)
  , (['h', 'o', 'u', 'r'], 3600000)
  , (['d', 'a', 'y'], 86400000)
  , (['w', 'e', 'e', 'k'], 604800000) ]

/-- The tail of the recurring pattern after the unit:
`s?(?:\s+at\s+(\d{1,2})(?::(\d{2}))?\s*(am|pm)?)?$`.  Returns the
optional `at`-time capture. -/
def recTail (l : List Char) : Option (Option (Nat × Option Nat × Option Mer)) :=
  let l2 := match l with
    | 's' :: r => r
    | _ => l
  if l2 = [] then some none
  else
    match ws1 l2 with
    | none => none
    | some r1 =>
      match word ['a', 't'] r1 with
      | none => none
      | some r2 =>
        match ws1 r2 with
        | none => none
        | some r3 => (clockEnd r3).map fun c => some c

/-- Try the recurring unit alternatives in order, each followed by
`recTail`. -/
def recUnitAlt :
    List (List Char × Nat) → List Char →
      Option (Nat × Option (Nat × Option Nat × Option Mer))
  | [], _ => none
  | (w, ms) :: rest, s =>
    match word w s with
    | some l =>
      (match recTail l with
       | some at_ => some (ms, at_)
       | none => recUnitAlt rest s)
    | none => recUnitAlt rest s

/-- `/^every\s+(\d+)?\s*(second|minute|hour|day|week)s?(?:\s+at\s+...)?$/i`
returning the optional amount, the unit multiplier, and the optional
`at`-time capture. -/
def matchRecurring (s : List Char) :
    Option (Option Nat × Nat × Option (Nat × Option Nat × Option Mer)) :=
  match word ['e', 'v', 'e', 'r', 'y'] s with
  | none => none
  | some r0 =>
    match ws1 r0 with
    | none => none
    | some r1 =>
      let (amount, r2) :=
        match matchNum r1 with
        | some (n, r) => (some n, r)
        | none => (none, r1)
      (recUnitAlt recUnits (dropWs r2)).map fun p => (amount, p)

/-- `/^tomorrow\s+at\s+(\d{1,2})(?::(\d{2}))?\s*(am|pm)?$/i` (code1's
tomorrow pattern requires the `at`). -/
def matchTomorrow1 (s : List Char) : Option (Nat × Option Nat × Option Mer) :=
  match word ['t', 'o', 'm', 'o', 'r', 'r', 'o', 'w'] s with
  | none => none
  | some r0 =>
    match ws1 r0 with
    | none => none
    | some r1 =>
      match word ['a', 't'] r1 with
      | none => none
      | some r2 =>
        match ws1 r2 with
        | none => none
        | some r3 => clockEnd r3

/-- `/^at\s+(\d{1,2})(?::(\d{2}))?\s*(am|pm)?$/i` -/
def matchAbsolute (s : List Char) : Option (Nat × Option Nat × Option Mer) :=
  match word ['a', 't'] s with
  | none => none
  | some r0 =>
    match ws1 r0 with
    | none => none
    | some r1 => clockEnd r1

/-- `parseInt(amount) || 1` of the recurring branch: a missing or zero
amount becomes 1. -/
def amountOr1 : Option Nat → Nat
  | none => 1
  | some 0 => 1
  | some n => n

/-- code1's `TimeParser.parse`: patterns tried in source order (relative,
recurring, tomorrow, absolute); otherwise
`ReminderError('PARSE_FAILED')`. -/
def parse (now : Nat) (input : String) : Except Err Plan :=
  let s := clean input
  match matchRelative s with
  | some ms => .ok { timestamp := now + ms, interval := none, isRecurring := false }
  | none =>
  match matchRecurring s with
  | some (amount, unitMs, at_) =>
    let interval := amountOr1 amount * unitMs
    (match at_ with
     | some (h, mo, mer) =>
       let t0 := calculateTimeToday now h (mo.getD 0) mer
       let t1 := if t0 < now then t0 + interval else t0
       .ok { timestamp := t1, interval := some interval, isRecurring := true }
     | none =>
       .ok { timestamp := now + interval, interval := some interval,
             isRecurring := true })
  | none =>
  match matchTomorrow1 s with
  | some (h, mo, mer) =>
    .ok { timestamp := calculateTimeTomorrow now h (mo.getD 0) mer,
          interval := none, isRecurring := false }
  | none =>
  match matchAbsolute s with
  | some (h, mo, mer) =>
    let t0 := calculateTimeToday now h (mo.getD 0) mer
    let t1 := if t0 < now then t0 + 86400000 else t0
    .ok { timestamp := t1, interval := none, isRecurring := false }
  | none => .error .parseFailed

end Code1

/-! ## Generic list-as-sorted-output helper (the `.sort((a, b) => ...)`
calls of the two `list` methods; only membership matters for the claims,
but the ordering contract is part of the embedding). -/

/-- Insert into a sorted list w.r.t. a boolean `le`. -/
def insertSorted {α : Type} (le : α → α → Bool) (a : α) : List α → List α
  | [] => [a]
  | b :: r => if le a b then a :: b :: r else b :: insertSorted le a r

/-- Insertion sort: a sorted permutation, modelling `Array.prototype.sort`
with a numeric comparator. -/
def sortBy {α : Type} (le : α → α → Bool) : List α → List α
  | [] => []
  | a :: r => insertSorted le a (sortBy le r)

theorem mem_insertSorted {α : Type} (le : α → α → Bool) (a x : α)
    (l : List α) : x ∈ insertSorted le a l ↔ x = a ∨ x ∈ l := by
  induction l with
  | nil => simp [insertSorted]
  | cons b r ih =>
    simp only [insertSorted]
    split
    · simp [List.mem_cons]
    · simp only [List.mem_cons, ih]
      tauto

theorem mem_sortBy {α : Type} (le : α → α → Bool) (x : α) (l : List α) :
    x ∈ sortBy le l ↔ x ∈ l := by
  induction l with
  | nil => simp [sortBy]
  | cons a r ih => simp [sortBy, mem_insertSorted, ih, List.mem_cons]

/-! ## Secondary-index primitives

Both managers mutate their `Map<destination, Set<id>>` index in exactly
two ways: `set.add(id)` on the destination's (possibly fresh) set
followed by `map.set(destination, set)`, and `set.delete(id)` on an
existing set.  `idxAdd`/`idxDel` are these two mutations on the
function-as-map model. -/

/-- `(map.get(d) || new Set()).add(n); map.set(d, set)` -/
def idxAdd (idx : String → List Nat) (d : String) (n : Nat) : String → List Nat :=
  fun c => if c = d then (if n ∈ idx d then idx d else idx d ++ [n]) else idx c

/-- `map.get(d)?.delete(n)` -/
def idxDel (idx : String → List Nat) (d : String) (n : Nat) : String → List Nat :=
  fun c => if c = d then (idx d).erase n else idx c

theorem idxAdd_eq (idx : String → List Nat) (d : String) (n : Nat) (c : String) :
    idxAdd idx d n c =
      if c = d then (if n ∈ idx d then idx d else idx d ++ [n]) else idx c := rfl

theorem idxDel_eq (idx : String → List Nat) (d : String) (n : Nat) (c : String) :
    idxDel idx d n c = if c = d then (idx d).erase n else idx c := rfl

theorem mem_idxAdd {idx : String → List Nat} {d : String} {n : Nat}
    {c : String} {k : Nat} :
    k ∈ idxAdd idx d n c ↔ k ∈ idx c ∨ (c = d ∧ k = n) := by
  rw [idxAdd_eq]
  by_cases hcd : c = d
  · rw [if_pos hcd]
    by_cases hn : n ∈ idx d
    · rw [if_pos hn]
      subst hcd
      constructor
      · exact fun h => Or.inl h
      · rintro (h | ⟨-, rfl⟩)
        · exact h
        · exact hn
    · rw [if_neg hn, List.mem_append, List.mem_singleton]
      subst hcd
      constructor
      · rintro (h | h)
        · exact Or.inl h
        · exact Or.inr ⟨rfl, h⟩
      · rintro (h | ⟨-, h⟩)
        · exact Or.inl h
        · exact Or.inr h
  · rw [if_neg hcd]
    constructor
    · exact fun h => Or.inl h
    · rintro (h | ⟨hcd', -⟩)
      · exact h
      · exact absurd hcd' hcd

theorem nodup_idxAdd {idx : String → List Nat} {d : String} {n : Nat}
    (hnd : ∀ c, (idx c).Nodup) (c : String) : (idxAdd idx d n c).Nodup := by
  rw [idxAdd_eq]
  by_cases hcd : c = d
  · rw [if_pos hcd]
    by_cases hn : n ∈ idx d
    · rw [if_pos hn]
      exact hnd d
    · rw [if_neg hn, List.nodup_append]
      refine ⟨hnd d, List.nodup_singleton n, ?_⟩
      intro x hx hx'
      rw [List.mem_singleton] at hx'
      subst hx'
      exact hn hx
  · rw [if_neg hcd]
    exact hnd c

theorem mem_idxDel {idx : String → List Nat} {d : String} {n : Nat}
    (hnd : ∀ c, (idx c).Nodup) {c : String} {k : Nat} :
    k ∈ idxDel idx d n c ↔ k ∈ idx c ∧ ¬(c = d ∧ k = n) := by
  rw [idxDel_eq]
  by_cases hcd : c = d
  · rw [if_pos hcd]
    subst hcd
    rw [(hnd c).mem_erase_iff]
    constructor
    · rintro ⟨hne, hmem⟩
      exact ⟨hmem, fun h => hne h.2⟩
    · rintro ⟨hmem, hne⟩
      exact ⟨fun h => hne ⟨rfl, h⟩, hmem⟩
  · rw [if_neg hcd]
    constructor
    · exact fun h => ⟨h, fun h' => hcd h'.1⟩
    · exact fun h => h.1

theorem nodup_idxDel {idx : String → List Nat} {d : String} {n : Nat}
    (hnd : ∀ c, (idx c).Nodup) (c : String) : (idxDel idx d n c).Nodup := by
  rw [idxDel_eq]
  by_cases hcd : c = d
  · rw [if_pos hcd]
    exact (hnd d).erase n
  · rw [if_neg hcd]
    exact hnd c

/-! ## `src/code3.js` — ScheduleManager -/

namespace Code3

/-- `config.maxSchedulesPerChannel` -/
def maxSchedulesPerChannel : Nat := 20

/-- A stored schedule object (the fields `ScheduleManager.create` builds,
with the spread of the parser's `timeData`). -/
structure Schedule where
  id : Nat
  channelId : String
  message : String
  createdBy : String
  createdAt : Nat
  enabled : Bool
  type : SType
  interval : Option IKind
  day : Option Nat
  time : Option TimeOfDay
  intervalMs : Option Nat
  nextRun : Nat
  deriving DecidableEq, Repr

/-- The `ScheduleManager` state: the primary `schedules` map (insertion
ordered, keyed by `id`), the `channelSchedules` secondary index
(channel → set of ids), and the `nextId` counter. -/
structure St where
  schedules : List Schedule
  channelSchedules : String → List Nat
  nextId : Nat

/-- Fresh manager state (constructor). -/
def initSt : St := ⟨[], fun _ => [], 1⟩

/-- `this.schedules.get(id)` -/
def lookup (s : St) (tid : Nat) : Option Schedule :=
  s.schedules.find? fun t => t.id = tid

/-- `ScheduleManager.save`: the `catch` block logs and does **not**
rethrow, so a failed write surfaces as success to the caller. -/
def save (saveOk : Bool) : Except Err Unit :=
  match saveResult saveOk with
  | .ok _ => .ok ()
  | .error _ => .ok ()

/-- `ScheduleManager.create(channelId, message, timeString, createdBy)`.
Returns the state (mutated even when the trailing save fails, since the
maps are updated before `save` is awaited) and the caller-visible
outcome. -/
def create (s : St) (channelId message timeString createdBy : String)
    (now : Nat) (saveOk : Bool) : St × Except Err Schedule :=
  if maxSchedulesPerChannel ≤ (s.channelSchedules channelId).length then
    (s, .error .limitReached)
  else
    match parse now timeString with
    | .error e => (s, .error e)
    | .ok td =>
      let sched : Schedule :=
        { id := s.nextId, channelId := channelId, message := message,
          createdBy := createdBy, createdAt := now, enabled := true,
          type := td.type, interval := td.interval, day := td.day,
          time := td.time, intervalMs := td.intervalMs, nextRun := td.nextRun }
      let st' : St :=
        { schedules := s.schedules ++ [sched],
          channelSchedules := idxAdd s.channelSchedules channelId s.nextId,
          nextId := s.nextId + 1 }
      (st', match save saveOk with
            | .ok _ => .ok sched
            | .error e => .error e)

/-- `ScheduleManager.delete(scheduleId, userId)` with its ownership
check. -/
def delete (s : St) (scheduleId : Nat) (userId : String) (saveOk : Bool) :
    St × Except Err Schedule :=
  match lookup s scheduleId with
  | none => (s, .error .notFound)
  | some sched =>
    if sched.createdBy ≠ userId then (s, .error .unauthorized)
    else
      let st' : St :=
        { schedules := s.schedules.filter fun t => t.id ≠ scheduleId,
          channelSchedules := idxDel s.channelSchedules sched.channelId scheduleId,
          nextId := s.nextId }
      (st', match save saveOk with
            | .ok _ => .ok sched
            | .error e => .error e)

/-- `ScheduleManager.list(channelId)`: resolve the channel's id set,
keep enabled schedules, sort ascending by `nextRun`. -/
def listChannel (s : St) (channelId : String) : List Schedule :=
  sortBy (fun a b => a.nextRun ≤ b.nextRun)
    ((s.channelSchedules channelId).filterMap fun tid =>
      match lookup s tid with
      | some t => if t.enabled then some t else none
      | none => none)

/-- The due snapshot one `check` tick collects:
`schedule.enabled && schedule.nextRun <= now`. -/
def dueList (s : St) (now : Nat) : List Schedule :=
  s.schedules.filter fun t => t.enabled && t.nextRun ≤ now

/-- Processing of one due schedule inside `check`: when the channel
fetch/send succeeds (`dv t.id`), a `once` schedule is deleted from both
maps, a `recurring` one gets `nextRun += 24h/7d`, an `interval` one gets
`nextRun = now + intervalMs`; when the send throws, the `catch` leaves
the schedule untouched. -/
def stepCheck (now : Nat) (dv : Nat → Bool) (s : St) (t : Schedule) : St :=
  if dv t.id then
    match t.type with
    | .once =>
      { s with
        schedules := s.schedules.filter fun u => u.id ≠ t.id,
        channelSchedules := idxDel s.channelSchedules t.channelId t.id }
    | .recurring =>
      match t.interval with
      | some .daily =>
        { s with schedules := s.schedules.map fun u =>
            if u.id = t.id then { u with nextRun := u.nextRun + 86400000 } else u }
      | some .weekly =>
        { s with schedules := s.schedules.map fun u =>
            if u.id = t.id then { u with nextRun := u.nextRun + 604800000 } else u }
      | none => s
    | .interval =>
      { s with schedules := s.schedules.map fun u =>
          if u.id = t.id then { u with nextRun := now + t.intervalMs.getD 0 } else u }
  else s

/-- `ScheduleManager.check`: snapshot the due set, process it
sequentially, return the new state and the due snapshot (the source's
return value).  The trailing `save` never affects the outcome (it
swallows failures). -/
def check (s : St) (now : Nat) (dv : Nat → Bool) : St × List Schedule :=
  let due := dueList s now
  (due.foldl (stepCheck now dv) s, due)

/-- The schedules a `check` tick actually sends (those whose
`channel.send` succeeded). -/
def delivered (s : St) (now : Nat) (dv : Nat → Bool) : List Schedule :=
  (dueList s now).filter fun t => dv t.id

end Code3

/-! ## `src/code1.js` — ReminderManager -/

namespace Code1

/-- `config.maxRemindersPerUser` -/
def maxRemindersPerUser : Nat := 25

/-- A stored reminder object. -/
structure Reminder where
  id : Nat
  userId : String
  channelId : String
  message : String
  timestamp : Nat
  interval : Option Nat
  isRecurring : Bool
  createdAt : Nat
  triggered : Bool
  deriving DecidableEq, Repr

/-- The `ReminderManager` state: primary `reminders` map, `userReminders`
secondary index (user → set of ids), `nextId` counter. -/
structure St where
  reminders : List Reminder
  userReminders : String → List Nat
  nextId : Nat

/-- Fresh manager state (constructor). -/
def initSt : St := ⟨[], fun _ => [], 1⟩

/-- `this.reminders.get(id)` -/
def lookup (s : St) (tid : Nat) : Option Reminder :=
  s.reminders.find? fun t => t.id = tid

/-- `ReminderManager.save`: logs the failure and **rethrows**
(`throw error` in the catch block). -/
def save (saveOk : Bool) : Except Err Unit :=
  match saveResult saveOk with
  | .ok _ => .ok ()
  | .error e => .error e

/-- `ReminderManager.create(userId, channelId, message, timeString)`.
The limit check reads the user's id set before any parsing; both maps are
updated before `save` is awaited, so a failing save leaves the mutation
in memory while the caller sees the rethrown error. -/
def create (s : St) (userId channelId message timeString : String)
    (now : Nat) (saveOk : Bool) : St × Except Err Reminder :=
  if maxRemindersPerUser ≤ (s.userReminders userId).length then
    (s, .error .limitReached)
  else
    match parse now timeString with
    | .error e => (s, .error e)
    | .ok pr =>
      let reminder : Reminder :=
        { id := s.nextId, userId := userId, channelId := channelId,
          message := message, timestamp := pr.timestamp,
          interval := pr.interval, isRecurring := pr.isRecurring,
          createdAt := now, triggered := false }
      let st' : St :=
        { reminders := s.reminders ++ [reminder],
          userReminders := idxAdd s.userReminders userId s.nextId,
          nextId := s.nextId + 1 }
      (st', match save saveOk with
            | .ok _ => .ok reminder
            | .error e => .error e)

/-- `ReminderManager.delete(reminderId, userId)` with its ownership
check; on a failing save the maps are already updated and the error is
rethrown. -/
def delete (s : St) (reminderId : Nat) (userId : String) (saveOk : Bool) :
    St × Except Err Reminder :=
  match lookup s reminderId with
  | none => (s, .error .notFound)
  | some reminder =>
    if reminder.userId ≠ userId then (s, .error .unauthorized)
    else
      let st' : St :=
        { reminders := s.reminders.filter fun t => t.id ≠ reminderId,
          userReminders := idxDel s.userReminders userId reminderId,
          nextId := s.nextId }
      (st', match save saveOk with
            | .ok _ => .ok reminder
            | .error e => .error e)

/-- `ReminderManager.list(userId)`: resolve the user's id set and sort
ascending by timestamp. -/
def listUser (s : St) (userId : String) : List Reminder :=
  sortBy (fun a b => a.timestamp ≤ b.timestamp)
    ((s.userReminders userId).filterMap fun tid => lookup s tid)

/-- JavaScript truthiness of `reminder.interval` (`null`, `undefined` and
`0` are falsy). -/
def intervalTruthy : Option Nat → Bool
  | some k => k ≠ 0
  | none => false

/-- The first pass of `check` over one reminder: a due
(`!triggered && timestamp <= now`) recurring reminder with a truthy
interval is rescheduled to `now + interval`; a due one-time reminder is
marked `triggered`. -/
def firstPass (now : Nat) (r : Reminder) : Reminder :=
  if ¬ r.triggered ∧ r.timestamp ≤ now then
    (if r.isRecurring && intervalTruthy r.interval then
       { r with timestamp := now + r.interval.getD 0 }
     else { r with triggered := true })
  else r

/-- The second pass of `check`: every `triggered && !isRecurring`
reminder is removed from both maps. -/
def secondPassStep (s : St) (r : Reminder) : St :=
  if r.triggered ∧ ¬ r.isRecurring then
    { reminders := s.reminders.filter fun t => t.id ≠ r.id,
      userReminders := idxDel s.userReminders r.userId r.id,
      nextId := s.nextId }
  else s

/-- `ReminderManager.check`: first pass over the whole map, second
cleanup pass, then (when anything triggered) a save followed by the
`reminder:trigger` emissions.  A failing save aborts the method after the
map mutations and before any emission, so the emitted list is empty in
that case while the state is already mutated. -/
def check (s : St) (now : Nat) (saveOk : Bool) : St × List Reminder :=
  let trig := (s.reminders.filter fun r => ¬ r.triggered ∧ r.timestamp ≤ now).map
    (firstPass now)
  let s1 : St := { s with reminders := s.reminders.map (firstPass now) }
  let s2 := s1.reminders.foldl secondPassStep s1
  (s2, if trig.isEmpty then [] else if saveOk then trig else [])

end Code1

/-! ## The dual-index consistency invariant, generically

Both managers keep a primary id-keyed map and a secondary
destination-keyed index of id sets.  `DualInd` is the consistency
statement (an id is stored iff it is a member of exactly one destination
set, namely that of its own task); `WFIdx` is the bookkeeping that makes
it preservable (no duplicate ids, duplicate-free sets, freshness of the
id counter). -/

/-- The dual-index consistency invariant for a primary list `prim` (ids
via `gid`, destinations via `gdest`) and secondary index `idx`: every
stored task's id is in its destination's set and in no other set, and
every id in any set belongs to a stored task of that destination. -/
def DualInd {α : Type} (gid : α → Nat) (gdest : α → String)
    (prim : List α) (idx : String → List Nat) : Prop :=
  (∀ t ∈ prim, gid t ∈ idx (gdest t) ∧ ∀ c, gid t ∈ idx c → c = gdest t) ∧
  (∀ c tid, tid ∈ idx c → ∃ t ∈ prim, gid t = tid ∧ gdest t = c)

/-- Bookkeeping: distinct primary ids, ids below the `nextId` counter,
duplicate-free index sets with members below the counter. -/
def WFIdx {α : Type} (gid : α → Nat)
    (prim : List α) (idx : String → List Nat) (nid : Nat) : Prop :=
  (prim.map gid).Nodup ∧ (∀ t ∈ prim, gid t < nid) ∧
  (∀ c, (idx c).Nodup) ∧ (∀ c tid, tid ∈ idx c → tid < nid)

/-- Combined store invariant. -/
def Good {α : Type} (gid : α → Nat) (gdest : α → String)
    (prim : List α) (idx : String → List Nat) (nid : Nat) : Prop :=
  DualInd gid gdest prim idx ∧ WFIdx gid prim idx nid

theorem good_insert {α : Type} {gid : α → Nat} {gdest : α → String}
    {prim : List α} {idx : String → List Nat} {nid : Nat} (t : α)
    (hg : Good gid gdest prim idx nid) (hid : gid t = nid) :
    Good gid gdest (prim ++ [t]) (idxAdd idx (gdest t) nid) (nid + 1) := by
  obtain ⟨⟨hfwd, hbwd⟩, hnd, hbound, hidxnd, hidxb⟩ := hg
  refine ⟨⟨?_, ?_⟩, ?_, ?_, fun c => nodup_idxAdd hidxnd c, ?_⟩
  · intro u hu
    rcases List.mem_append.1 hu with hu | hu
    · refine ⟨mem_idxAdd.2 (Or.inl (hfwd u hu).1), ?_⟩
      intro c hc
      rcases mem_idxAdd.1 hc with hc | ⟨-, hc⟩
      · exact (hfwd u hu).2 _ hc
      · exact absurd (hc ▸ hbound u hu) (lt_irrefl nid)
    · rw [List.mem_singleton] at hu
      subst hu
      refine ⟨mem_idxAdd.2 (Or.inr ⟨rfl, hid⟩), ?_⟩
      intro c hc
      rcases mem_idxAdd.1 hc with hc | ⟨hc, -⟩
      · rw [hid] at hc
        exact absurd (hidxb _ _ hc) (lt_irrefl nid)
      · exact hc
  · intro c tid htid
    rcases mem_idxAdd.1 htid with htid | ⟨hcd, htid⟩
    · obtain ⟨u, hu, h1, h2⟩ := hbwd _ _ htid
      exact ⟨u, List.mem_append.2 (Or.inl hu), h1, h2⟩
    · exact ⟨t, List.mem_append.2 (Or.inr (List.mem_singleton.2 rfl)),
        by rw [hid, htid], hcd.symm⟩
  · rw [List.map_append]
    simp only [List.map_cons, List.map_nil]
    rw [List.nodup_append]
    refine ⟨hnd, List.nodup_singleton _, ?_⟩
    intro x hx hx'
    rw [List.mem_singleton] at hx'
    obtain ⟨u, hu, hux⟩ := List.mem_map.1 hx
    subst hx'
    rw [hid] at hux
    exact absurd (hux ▸ hbound u hu) (lt_irrefl nid)
  · intro u hu
    rcases List.mem_append.1 hu with hu | hu
    · exact Nat.lt_succ_of_lt (hbound u hu)
    · rw [List.mem_singleton] at hu
      subst hu
      rw [hid]
      exact Nat.lt_succ_self nid
  · intro c tid htid
    rcases mem_idxAdd.1 htid with htid | ⟨-, htid⟩
    · exact Nat.lt_succ_of_lt (hidxb _ _ htid)
    · rw [htid]
      exact Nat.lt_succ_self nid

theorem good_remove {α : Type} {gid : α → Nat} {gdest : α → String}
    {prim : List α} {idx : String → List Nat} {nid : Nat} (tid : Nat) (d : String)
    (hg : Good gid gdest prim idx nid)
    (hcons : ∀ u ∈ prim, gid u = tid → gdest u = d) :
    Good gid gdest (prim.filter fun u => gid u ≠ tid) (idxDel idx d tid) nid := by
  obtain ⟨⟨hfwd, hbwd⟩, hnd, hbound, hidxnd, hidxb⟩ := hg
  refine ⟨⟨?_, ?_⟩, ?_, ?_, fun c => nodup_idxDel hidxnd c, ?_⟩
  · intro u hu
    rw [List.mem_filter] at hu
    obtain ⟨hu, hne⟩ := hu
    rw [decide_eq_true_eq] at hne
    refine ⟨(mem_idxDel hidxnd).2 ⟨(hfwd u hu).1, fun h => hne h.2⟩, ?_⟩
    intro c hc
    exact (hfwd u hu).2 _ ((mem_idxDel hidxnd).1 hc).1
  · intro c tid' htid
    obtain ⟨htid', hne⟩ := (mem_idxDel hidxnd).1 htid
    obtain ⟨u, hu, h1, h2⟩ := hbwd _ _ htid'
    have hune : gid u ≠ tid := by
      intro heq
      exact hne ⟨h2 ▸ hcons u hu heq, h1 ▸ heq⟩
    refine ⟨u, ?_, h1, h2⟩
    rw [List.mem_filter]
    exact ⟨hu, by simpa using hune⟩
  · exact ((List.filter_sublist _).map gid).nodup hnd
  · intro u hu
    exact hbound u (List.mem_of_mem_filter hu)
  · intro c tid' htid
    exact hidxb _ _ ((mem_idxDel hidxnd).1 htid).1

theorem good_update {α : Type} {gid : α → Nat} {gdest : α → String}
    {prim : List α} {idx : String → List Nat} {nid : Nat} (f : α → α)
    (hf : ∀ u, gid (f u) = gid u ∧ gdest (f u) = gdest u)
    (hg : Good gid gdest prim idx nid) :
    Good gid gdest (prim.map f) idx nid := by
  obtain ⟨⟨hfwd, hbwd⟩, hnd, hbound, hidxnd, hidxb⟩ := hg
  have hmapids : (prim.map f).map gid = prim.map gid := by
    rw [List.map_map]
    exact List.map_congr_left fun u _ => (hf u).1
  refine ⟨⟨?_, ?_⟩, ?_, ?_, hidxnd, hidxb⟩
  · intro u hu
    obtain ⟨v, hv, rfl⟩ := List.mem_map.1 hu
    rw [(hf v).1, (hf v).2]
    exact hfwd v hv
  · intro c tid htid
    obtain ⟨u, hu, h1, h2⟩ := hbwd _ _ htid
    exact ⟨f u, List.mem_map_of_mem f hu, by rw [(hf u).1, h1], by rw [(hf u).2, h2]⟩
  · rw [hmapids]
    exact hnd
  · intro u hu
    obtain ⟨v, hv, rfl⟩ := List.mem_map.1 hu
    rw [(hf v).1]
    exact hbound v hv

/-- In a list of pairs with duplicate-free first components, a first
component determines the pair. -/
theorem pair_eq_of_nodup_fst {pairs : List (Nat × String)}
    (h : (pairs.map Prod.fst).Nodup) :
    ∀ p ∈ pairs, ∀ q ∈ pairs, p.1 = q.1 → p = q := by
  induction pairs with
  | nil => intro p hp; exact absurd hp (List.not_mem_nil p)
  | cons a l ih =>
    rw [List.map_cons, List.nodup_cons] at h
    intro p hp q hq hfst
    rcases List.mem_cons.1 hp with hp1 | hp1
    · rcases List.mem_cons.1 hq with hq1 | hq1
      · rw [hp1, hq1]
      · refine absurd ?_ h.1
        rw [← hp1, hfst]
        exact List.mem_map_of_mem Prod.fst hq1
    · rcases List.mem_cons.1 hq with hq1 | hq1
      · refine absurd ?_ h.1
        rw [← hq1, ← hfst]
        exact List.mem_map_of_mem Prod.fst hp1
      · exact ih h.2 p hp1 q hq1 hfst

/-- Injectivity on members from a duplicate-free image list. -/
theorem eq_of_nodup_map {α β : Type} (g : α → β) {l : List α}
    (hnd : (l.map g).Nodup) :
    ∀ u ∈ l, ∀ v ∈ l, g u = g v → u = v := by
  induction l with
  | nil => intro u hu; exact absurd hu (List.not_mem_nil u)
  | cons a l ih =>
    rw [List.map_cons, List.nodup_cons] at hnd
    intro u hu v hv heq
    rcases List.mem_cons.1 hu with hu1 | hu1
    · rcases List.mem_cons.1 hv with hv1 | hv1
      · rw [hu1, hv1]
      · refine absurd ?_ hnd.1
        rw [← hu1, heq]
        exact List.mem_map_of_mem g hv1
    · rcases List.mem_cons.1 hv with hv1 | hv1
      · refine absurd ?_ hnd.1
        rw [← hv1, ← heq]
        exact List.mem_map_of_mem g hu1
      · exact ih hnd.2 u hu1 v hv1 heq

/-! ## Invariant preservation for `ScheduleManager` (code3) -/

namespace Code3

/-- The store invariant specialised to a `ScheduleManager` state. -/
def GoodSt (s : St) : Prop :=
  Good Schedule.id Schedule.channelId s.schedules s.channelSchedules s.nextId

/-- The dual-index consistency statement specialised to a
`ScheduleManager` state. -/
def DualIndSt (s : St) : Prop :=
  DualInd Schedule.id Schedule.channelId s.schedules s.channelSchedules

theorem lookup_mem {s : St} {tid : Nat} {t : Schedule}
    (h : lookup s tid = some t) : t ∈ s.schedules ∧ t.id = tid := by
  unfold lookup at h
  refine ⟨List.mem_of_find?_eq_some h, ?_⟩
  have h1 := List.find?_some h
  simpa using h1

theorem initSt_good : GoodSt initSt :=
  ⟨⟨fun t ht => absurd ht (List.not_mem_nil t),
    fun _ tid htid => absurd htid (List.not_mem_nil tid)⟩,
   List.nodup_nil,
   fun t ht => absurd ht (List.not_mem_nil t),
   fun _ => List.nodup_nil,
   fun _ tid htid => absurd htid (List.not_mem_nil tid)⟩

theorem create_good (s : St) (ch m ts cb : String) (now : Nat) (so : Bool)
    (h : GoodSt s) : GoodSt (create s ch m ts cb now so).1 := by
  unfold create
  split
  · exact h
  · split
    · exact h
    · exact good_insert _ h rfl

theorem delete_good (s : St) (tid : Nat) (uid : String) (so : Bool)
    (h : GoodSt s) : GoodSt (delete s tid uid so).1 := by
  unfold delete
  split
  · exact h
  · next sched hl =>
    have hmem := lookup_mem hl
    have hcons : ∀ u ∈ s.schedules, u.id = tid → u.channelId = sched.channelId := by
      intro u hu hid
      have : u = sched :=
        eq_of_nodup_map Schedule.id h.2.1 u hu sched hmem.1 (by rw [hid, hmem.2])
      rw [this]
    split
    · exact h
    · exact good_remove tid sched.channelId h hcons

theorem stepCheck_pairs (now : Nat) (dv : Nat → Bool) (s : St) (t : Schedule) :
    ∀ u ∈ (stepCheck now dv s t).schedules,
      ∃ v ∈ s.schedules, u.id = v.id ∧ u.channelId = v.channelId := by
  unfold stepCheck
  split
  · split
    · intro u hu
      exact ⟨u, List.mem_of_mem_filter hu, rfl, rfl⟩
    · split
      · intro u hu
        obtain ⟨v, hv, rfl⟩ := List.mem_map.1 hu
        refine ⟨v, hv, ?_, ?_⟩ <;> by_cases hid : v.id = t.id
        · rw [if_pos hid]
        · rw [if_neg hid]
        · rw [if_pos hid]
        · rw [if_neg hid]
      · intro u hu
        obtain ⟨v, hv, rfl⟩ := List.mem_map.1 hu
        refine ⟨v, hv, ?_, ?_⟩ <;> by_cases hid : v.id = t.id
        · rw [if_pos hid]
        · rw [if_neg hid]
        · rw [if_pos hid]
        · rw [if_neg hid]
      · intro u hu
        exact ⟨u, hu, rfl, rfl⟩
    · intro u hu
      obtain ⟨v, hv, rfl⟩ := List.mem_map.1 hu
      refine ⟨v, hv, ?_, ?_⟩ <;> by_cases hid : v.id = t.id
      · rw [if_pos hid]
      · rw [if_neg hid]
      · rw [if_pos hid]
      · rw [if_neg hid]
  · intro u hu
    exact ⟨u, hu, rfl, rfl⟩

theorem stepCheck_good (now : Nat) (dv : Nat → Bool) (t : Schedule) (s : St)
    (h : GoodSt s)
    (hcons : ∀ u ∈ s.schedules, u.id = t.id → u.channelId = t.channelId) :
    GoodSt (stepCheck now dv s t) := by
  unfold stepCheck
  split
  · split
    · exact good_remove t.id t.channelId h hcons
    · split
      · refine good_update _ ?_ h
        intro u
        by_cases hid : u.id = t.id
        · rw [if_pos hid]
          exact ⟨rfl, rfl⟩
        · rw [if_neg hid]
          exact ⟨rfl, rfl⟩
      · refine good_update _ ?_ h
        intro u
        by_cases hid : u.id = t.id
        · rw [if_pos hid]
          exact ⟨rfl, rfl⟩
        · rw [if_neg hid]
          exact ⟨rfl, rfl⟩
      · exact h
    · refine good_update _ ?_ h
      intro u
      by_cases hid : u.id = t.id
      · rw [if_pos hid]
        exact ⟨rfl, rfl⟩
      · rw [if_neg hid]
        exact ⟨rfl, rfl⟩
  · exact h

theorem foldCheck_good (now : Nat) (dv : Nat → Bool) (l : List Schedule) :
    ∀ (s : St) (pairs : List (Nat × String)),
      GoodSt s →
      (∀ u ∈ s.schedules, (u.id, u.channelId) ∈ pairs) →
      (∀ t ∈ l, (t.id, t.channelId) ∈ pairs) →
      (pairs.map Prod.fst).Nodup →
      GoodSt (l.foldl (stepCheck now dv) s) := by
  induction l with
  | nil =>
    intro s pairs hg _ _ _
    exact hg
  | cons t l ih =>
    intro s pairs hg hsp hlp hnd
    rw [List.foldl_cons]
    refine ih _ pairs ?_ ?_ (fun u hu => hlp u (List.mem_cons_of_mem t hu)) hnd
    · refine stepCheck_good now dv t s hg ?_
      intro u hu hid
      have := pair_eq_of_nodup_fst hnd _ (hsp u hu) _ (hlp t (List.mem_cons_self t l)) hid
      exact congrArg Prod.snd this
    · intro u hu
      obtain ⟨v, hv, h1, h2⟩ := stepCheck_pairs now dv s t u hu
      rw [h1, h2]
      exact hsp v hv

theorem check_good (s : St) (now : Nat) (dv : Nat → Bool) (hg : GoodSt s) :
    GoodSt (check s now dv).1 := by
  show GoodSt ((dueList s now).foldl (stepCheck now dv) s)
  refine foldCheck_good now dv (dueList s now) s
    (s.schedules.map fun t => (t.id, t.channelId)) hg ?_ ?_ ?_
  · exact fun u hu => List.mem_map_of_mem _ hu
  · intro t ht
    exact List.mem_map_of_mem _ (List.mem_of_mem_filter ht)
  · rw [List.map_map]
    exact hg.2.1

/-- One caller-visible operation on the `ScheduleManager` store. -/
inductive Op
  | create (channelId message timeString createdBy : String) (now : Nat) (saveOk : Bool)
  | del (scheduleId : Nat) (userId : String) (saveOk : Bool)
  | chk (now : Nat) (dv : Nat → Bool)

/-- Apply an operation to a state (result state only). -/
def applyOp (s : St) : Op → St
  | .create ch m ts cb now so => (create s ch m ts cb now so).1
  | .del tid uid so => (delete s tid uid so).1
  | .chk now dv => (check s now dv).1

/-- The state after a whole operation sequence, from a fresh manager. -/
def run (ops : List Op) : St := ops.foldl applyOp initSt

theorem applyOp_good (s : St) (op : Op) (h : GoodSt s) : GoodSt (applyOp s op) := by
  cases op with
  | create ch m ts cb now so => exact create_good s ch m ts cb now so h
  | del tid uid so => exact delete_good s tid uid so h
  | chk now dv => exact check_good s now dv h

theorem run_good (ops : List Op) : GoodSt (run ops) := by
  unfold run
  have haux : ∀ (l : List Op) (s : St), GoodSt s → GoodSt (l.foldl applyOp s) := by
    intro l
    induction l with
    | nil => exact fun s h => h
    | cons op l ih =>
      intro s h
      rw [List.foldl_cons]
      exact ih _ (applyOp_good s op h)
  exact haux ops initSt initSt_good

end Code3

/-! ## Invariant preservation for `ReminderManager` (code1) -/

namespace Code1

/-- The store invariant specialised to a `ReminderManager` state. -/
def GoodSt (s : St) : Prop :=
  Good Reminder.id Reminder.userId s.reminders s.userReminders s.nextId

/-- The dual-index consistency statement specialised to a
`ReminderManager` state. -/
def DualIndSt (s : St) : Prop :=
  DualInd Reminder.id Reminder.userId s.reminders s.userReminders

theorem lookup_mem1 {s : St} {tid : Nat} {t : Reminder}
    (h : lookup s tid = some t) : t ∈ s.reminders ∧ t.id = tid := by
  unfold lookup at h
  refine ⟨List.mem_of_find?_eq_some h, ?_⟩
  have h1 := List.find?_some h
  simpa using h1

theorem initSt_good1 : GoodSt initSt :=
  ⟨⟨fun t ht => absurd ht (List.not_mem_nil t),
    fun _ tid htid => absurd htid (List.not_mem_nil tid)⟩,
   List.nodup_nil,
   fun t ht => absurd ht (List.not_mem_nil t),
   fun _ => List.nodup_nil,
   fun _ tid htid => absurd htid (List.not_mem_nil tid)⟩

theorem create_good1 (s : St) (uid ch m ts : String) (now : Nat) (so : Bool)
    (h : GoodSt s) : GoodSt (create s uid ch m ts now so).1 := by
  unfold create
  split
  · exact h
  · split
    · exact h
    · exact good_insert _ h rfl

theorem delete_good1 (s : St) (tid : Nat) (uid : String) (so : Bool)
    (h : GoodSt s) : GoodSt (delete s tid uid so).1 := by
  unfold delete
  split
  · exact h
  · next reminder hl =>
    have hmem := lookup_mem1 hl
    split
    · exact h
    · next hauth =>
      rw [Decidable.not_not] at hauth
      have hcons : ∀ u ∈ s.reminders, u.id = tid → u.userId = uid := by
        intro u hu hid
        have : u = reminder :=
          eq_of_nodup_map Reminder.id h.2.1 u hu reminder hmem.1 (by rw [hid, hmem.2])
        rw [this, hauth]
      exact good_remove tid uid h hcons

theorem firstPass_fields (now : Nat) (r : Reminder) :
    (firstPass now r).id = r.id ∧ (firstPass now r).userId = r.userId := by
  unfold firstPass
  split
  · split
    · exact ⟨rfl, rfl⟩
    · exact ⟨rfl, rfl⟩
  · exact ⟨rfl, rfl⟩

theorem secondPassStep_pairs (s : St) (r : Reminder) :
    ∀ u ∈ (secondPassStep s r).reminders,
      ∃ v ∈ s.reminders, u.id = v.id ∧ u.userId = v.userId := by
  unfold secondPassStep
  split
  · intro u hu
    exact ⟨u, List.mem_of_mem_filter hu, rfl, rfl⟩
  · intro u hu
    exact ⟨u, hu, rfl, rfl⟩

theorem secondPassStep_good (r : Reminder) (s : St) (h : GoodSt s)
    (hcons : ∀ u ∈ s.reminders, u.id = r.id → u.userId = r.userId) :
    GoodSt (secondPassStep s r) := by
  unfold secondPassStep
  split
  · exact good_remove r.id r.userId h hcons
  · exact h

theorem foldPass2_good (l : List Reminder) :
    ∀ (s : St) (pairs : List (Nat × String)),
      GoodSt s →
      (∀ u ∈ s.reminders, (u.id, u.userId) ∈ pairs) →
      (∀ t ∈ l, (t.id, t.userId) ∈ pairs) →
      (pairs.map Prod.fst).Nodup →
      GoodSt (l.foldl secondPassStep s) := by
  induction l with
  | nil =>
    intro s pairs hg _ _ _
    exact hg
  | cons t l ih =>
    intro s pairs hg hsp hlp hnd
    rw [List.foldl_cons]
    refine ih _ pairs ?_ ?_ (fun u hu => hlp u (List.mem_cons_of_mem t hu)) hnd
    · refine secondPassStep_good t s hg ?_
      intro u hu hid
      have := pair_eq_of_nodup_fst hnd _ (hsp u hu) _ (hlp t (List.mem_cons_self t l)) hid
      exact congrArg Prod.snd this
    · intro u hu
      obtain ⟨v, hv, h1, h2⟩ := secondPassStep_pairs s t u hu
      rw [h1, h2]
      exact hsp v hv

theorem check_good1 (s : St) (now : Nat) (saveOk : Bool) (hg : GoodSt s) :
    GoodSt (check s now saveOk).1 := by
  show GoodSt (({ s with reminders := s.reminders.map (firstPass now) } : St).reminders.foldl
    secondPassStep { s with reminders := s.reminders.map (firstPass now) })
  have h1 : GoodSt ({ s with reminders := s.reminders.map (firstPass now) } : St) :=
    good_update (firstPass now) (firstPass_fields now) hg
  refine foldPass2_good _ _
    ((s.reminders.map (firstPass now)).map fun t => (t.id, t.userId)) h1
    (fun u hu => List.mem_map_of_mem _ hu)
    (fun t ht => List.mem_map_of_mem _ ht) ?_
  rw [List.map_map]
  exact h1.2.1

/-- One caller-visible operation on the `ReminderManager` store. -/
inductive Op
  | create (userId channelId message timeString : String) (now : Nat) (saveOk : Bool)
  | del (reminderId : Nat) (userId : String) (saveOk : Bool)
  | chk (now : Nat) (saveOk : Bool)

/-- Apply an operation to a state (result state only). -/
def applyOp (s : St) : Op → St
  | .create uid ch m ts now so => (create s uid ch m ts now so).1
  | .del tid uid so => (delete s tid uid so).1
  | .chk now so => (check s now so).1

/-- The state after a whole operation sequence, from a fresh manager. -/
def run (ops : List Op) : St := ops.foldl applyOp initSt

theorem applyOp_good1 (s : St) (op : Op) (h : GoodSt s) : GoodSt (applyOp s op) := by
  cases op with
  | create uid ch m ts now so => exact create_good1 s uid ch m ts now so h
  | del tid uid so => exact delete_good1 s tid uid so h
  | chk now so => exact check_good1 s now so h

theorem run_good1 (ops : List Op) : GoodSt (run ops) := by
  unfold run
  have haux : ∀ (l : List Op) (s : St), GoodSt s → GoodSt (l.foldl applyOp s) := by
    intro l
    induction l with
    | nil => exact fun s h => h
    | cons op l ih =>
      intro s h
      rw [List.foldl_cons]
      exact ih _ (applyOp_good1 s op h)
  exact haux ops initSt initSt_good1

end Code1

/-! ## Claim C1 -/

/-- **C1.** For every sequence of operations (create, delete, and
scheduler scan execution) on the task store, the dual-index consistency
invariant holds after each operation: a task id is present in the primary
id-keyed map if and only if it is a member of exactly one set in the
secondary per-destination (per-channel / per-user) index, namely the set
for that task's destination.  Stated for both embedded managers: every
state reachable by any operation sequence satisfies `DualInd`. -/
theorem c1_dual_index_consistency :
    (∀ ops : List Code3.Op, Code3.DualIndSt (Code3.run ops)) ∧
    (∀ ops : List Code1.Op, Code1.DualIndSt (Code1.run ops)) :=
  ⟨fun ops => (Code3.run_good ops).1, fun ops => (Code1.run_good1 ops).1⟩

/-! ## Arithmetic facts about the computed `nextRun` values -/

namespace Code3

theorem getNextDailyRun_gt (now : Nat) (t : TimeOfDay) :
    now < getNextDailyRun now t := by
  simp only [getNextDailyRun, timeAt, dayStart]
  split <;> omega

theorem getNextWeeklyRun_gt (now : Nat) (targetDay : Nat) (t : TimeOfDay) :
    now < getNextWeeklyRun now targetDay t := by
  simp only [getNextWeeklyRun, timeAt, dayStart, getDay, getHours]
  split <;> omega

theorem getTomorrowAt_gt (now : Nat) (t : TimeOfDay) :
    now < getTomorrowAt now t := by
  simp only [getTomorrowAt, timeAt, dayStart]
  omega

theorem getTodayAt_rollover_ge (now : Nat) (t : TimeOfDay) :
    now ≤ if getTodayAt now t < now then getTomorrowAt now t else getTodayAt now t := by
  split
  · exact Nat.le_of_lt (getTomorrowAt_gt now t)
  · omega

end Code3

namespace Code1

theorem calculateTimeTomorrow_gt (now hour minute : Nat) (mer : Option Mer) :
    now < calculateTimeTomorrow now hour minute mer := by
  simp only [calculateTimeTomorrow, calculateTimeToday, dayStart]
  omega

theorem absolute_rollover_ge (now t0 : Nat) (hge : dayStart now ≤ t0) :
    now ≤ if t0 < now then t0 + 86400000 else t0 := by
  simp only [dayStart] at hge
  split <;> omega

theorem calculateTimeToday_ge_dayStart (now hour minute : Nat) (mer : Option Mer) :
    dayStart now ≤ calculateTimeToday now hour minute mer := by
  simp only [calculateTimeToday]
  omega

end Code1

/-! ## Claim C4: what each accepted input's `nextRun` satisfies -/

namespace Code3

/-- Every plan code3's parser accepts has `nextRun ≥ now`. -/
theorem parse_ok_ge (now : Nat) (input : String) (p : Plan)
    (h : parse now input = .ok p) : now ≤ p.nextRun := by
  simp only [parse] at h
  cases hd : matchDaily (clean input) with
  | some v =>
    obtain ⟨hh, mo, mer⟩ := v
    simp only [hd, Except.ok.injEq] at h
    subst h
    exact Nat.le_of_lt (getNextDailyRun_gt now _)
  | none =>
  simp only [hd] at h
  cases hw : matchWeekly (clean input) with
  | some v =>
    obtain ⟨d, hh, mo, mer⟩ := v
    simp only [hw, Except.ok.injEq] at h
    subst h
    exact Nat.le_of_lt (getNextWeeklyRun_gt now _ _)
  | none =>
  simp only [hw] at h
  cases ht : matchTomorrow (clean input) with
  | some v =>
    obtain ⟨hh, mo, mer⟩ := v
    simp only [ht, Except.ok.injEq] at h
    subst h
    exact Nat.le_of_lt (getTomorrowAt_gt now _)
  | none =>
  simp only [ht] at h
  cases hto : matchToday (clean input) with
  | some v =>
    obtain ⟨hh, mo, mer⟩ := v
    simp only [hto, Except.ok.injEq] at h
    subst h
    exact getTodayAt_rollover_ge now _
  | none =>
  simp only [hto] at h
  cases hi : matchInterval (clean input) with
  | some ms =>
    simp only [hi, Except.ok.injEq] at h
    subst h
    exact Nat.le_add_right now ms
  | none =>
    simp only [hi] at h
    exact absurd h (by simp)

end Code3

namespace Code1

/-- Every plan code1's parser accepts either has `timestamp ≥ now`, or
comes from the recurring pattern with an `at`-time whose today target has
already passed, in which case the timestamp is that past target plus one
interval (which may still lie in the past). -/
theorem parse_ok_characterise (now : Nat) (input : String) (p : Plan)
    (h : parse now input = .ok p) :
    now ≤ p.timestamp ∨
      ∃ k tgt, p.interval = some k ∧ p.isRecurring = true ∧
        tgt < now ∧ p.timestamp = tgt + k := by
  simp only [parse] at h
  cases hr : matchRelative (clean input) with
  | some ms =>
    simp only [hr, Except.ok.injEq] at h
    subst h
    exact Or.inl (Nat.le_add_right now ms)
  | none =>
  simp only [hr] at h
  cases hrec : matchRecurring (clean input) with
  | some v =>
    obtain ⟨amount, unitMs, at_⟩ := v
    cases at_ with
    | some c =>
      obtain ⟨hh, mo, mer⟩ := c
      simp only [hrec, Except.ok.injEq] at h
      subst h
      by_cases ht : calculateTimeToday now hh (mo.getD 0) mer < now
      · refine Or.inr ⟨amountOr1 amount * unitMs,
          calculateTimeToday now hh (mo.getD 0) mer, rfl, rfl, ht, ?_⟩
        simp only [if_pos ht]
      · refine Or.inl ?_
        simp only [if_neg ht]
        omega
    | none =>
      simp only [hrec, Except.ok.injEq] at h
      subst h
      exact Or.inl (Nat.le_add_right now _)
  | none =>
  simp only [hrec] at h
  cases ht : matchTomorrow1 (clean input) with
  | some v =>
    obtain ⟨hh, mo, mer⟩ := v
    simp only [ht, Except.ok.injEq] at h
    subst h
    exact Or.inl (Nat.le_of_lt (calculateTimeTomorrow_gt now _ _ _))
  | none =>
  simp only [ht] at h
  cases ha : matchAbsolute (clean input) with
  | some v =>
    obtain ⟨hh, mo, mer⟩ := v
    simp only [ha, Except.ok.injEq] at h
    subst h
    exact Or.inl (absolute_rollover_ge now _ (calculateTimeToday_ge_dayStart now _ _ _))
  | none =>
    simp only [ha] at h
    exact absurd h (by simp)

end Code1

/-! ## Claim C4 -/

/-- **C4 is false as stated; counterexample.**  The input
`"every 1 second at 1am"` is accepted by code1's parser at
`now = 7200000` (02:00 on epoch day 0), yet the returned plan's
timestamp `3601000` (01:00:01) lies strictly in the past: the recurring
branch adds the interval only once to a passed target time. -/
theorem c4_counterexample :
    Code1.parse 7200000 ("every 1 second at 1am") =
      .ok { timestamp := 3601000, interval := some 1000, isRecurring := true } ∧
    3601000 < 7200000 :=
  ⟨rfl, by norm_num⟩

/-- **C4 (amended).**  For every accepted input, code3's parser returns
`nextRun ≥ now`; code1's parser returns `nextRun ≥ now` for every
accepted input except those matching the recurring pattern with an
`at`-time whose target time today has already passed — there the plan's
timestamp is that past target plus a single interval, which can still be
in the past (the scan corrects it on the next tick by firing
immediately). -/
theorem c4_amended_parser_never_past :
    (∀ (now : Nat) (input : String) (p : Code3.Plan),
        Code3.parse now input = .ok p → now ≤ p.nextRun) ∧
    (∀ (now : Nat) (input : String) (p : Code1.Plan),
        Code1.parse now input = .ok p →
          now ≤ p.timestamp ∨
            ∃ k tgt, p.interval = some k ∧ p.isRecurring = true ∧
              tgt < now ∧ p.timestamp = tgt + k) :=
  ⟨Code3.parse_ok_ge, Code1.parse_ok_characterise⟩

/-- Closed instance of the amended C4 theorem at concrete inputs. -/
theorem c4_amended_parser_never_past_witness :
    (0 : Nat) ≤ 32400000 ∧
    ((1000 : Nat) ≤ 301000 ∨
      ∃ k tgt, (none : Option Nat) = some k ∧ (false : Bool) = true ∧
        tgt < 1000 ∧ 301000 = tgt + k) :=
  ⟨c4_amended_parser_never_past.1 0 ("daily 9am")
      { type := .recurring, interval := some .daily, time := some ⟨9, 0⟩,
        nextRun := 32400000 } rfl,
   c4_amended_parser_never_past.2 1000 ("in 5 minutes")
      { timestamp := 301000, interval := none, isRecurring := false } rfl⟩

/-! ## Claim C5 -/

/-- **C5 (the code contradicts its own documentation).**  At
`now = 32700000` (Thursday, epoch day 0, 09:05 local) the input
`"weekly thursday 9:30am"` targets today's weekday, and today's 9:30
(`34200000`) has **not** yet passed; the comment on `getNextWeeklyRun`
says "if before the time: today at that time", yet the code compares
only `now.getHours() >= time.hour` (9 ≥ 9) and rolls a full week ahead:
the returned `nextRun` is `639000000 = 34200000 + 604800000`, next
Thursday 9:30, not today's. -/
theorem c5_weekly_minutes_bug_eval :
    Code3.parse 32700000 ("weekly thursday 9:30am") =
      .ok { type := .recurring, interval := some .weekly, day := some 4,
            time := some ⟨9, 30⟩, nextRun := 639000000 } ∧
    getDay 32700000 = 4 ∧
    Code3.getTodayAt 32700000 ⟨9, 30⟩ = 34200000 ∧
    32700000 < 34200000 ∧
    639000000 = 34200000 + 604800000 :=
  ⟨rfl, rfl, rfl, by norm_num, by norm_num⟩

/-! ## Claim C6 -/

theorem getNextDailyRun_hour25 (now : Nat) :
    Code3.getNextDailyRun now ⟨25, 0⟩ = dayStart now + 90000000 := by
  simp only [Code3.getNextDailyRun, Code3.timeAt, dayStart]
  split <;> omega

theorem code1_absolute_hour25 (now : Nat) :
    (if Code1.calculateTimeToday now 25 0 none < now then
       Code1.calculateTimeToday now 25 0 none + 86400000
     else Code1.calculateTimeToday now 25 0 none) = dayStart now + 90000000 := by
  simp only [Code1.calculateTimeToday, dayStart]
  split <;> omega

/-- **C6 is false as stated; counterexample.**  `"daily 25:00"` (and
code1's `"at 25:00"`) are accepted: `parse` succeeds instead of failing
with any `InvalidTime` error (no such error code exists in either
source), and the hour 25 is silently carried into `Date` arithmetic,
normalising to 01:00 of the following day (`90000000` at `now = 0`). -/
theorem c6_counterexample :
    Code3.parse 0 ("daily 25:00") =
      .ok { type := .recurring, interval := some .daily, time := some ⟨25, 0⟩,
            nextRun := 90000000 } ∧
    Code1.parse 0 ("at 25:00") =
      .ok { timestamp := 90000000, interval := none, isRecurring := false } ∧
    (90000000 : Nat) = 86400000 + 3600000 :=
  ⟨rfl, rfl, by norm_num⟩

/-- **C6 (amended).**  Out-of-range time-of-day values such as hour 25
match the grammar's one-or-two-digit group and are accepted: both
parsers return a plan whose timestamp is produced by ordinary date
arithmetic (hour 25 normalises to 01:00 the next day, i.e.
`dayStart now + 90000000`), and no `ParseError(InvalidTime)` is ever
raised — the only parse failures are `INVALID_FORMAT` (code3) and
`PARSE_FAILED` (code1). -/
theorem c6_amended_hour25_normalised :
    ∀ now : Nat,
      Code3.parse now ("daily 25:00") =
        .ok { type := .recurring, interval := some .daily, time := some ⟨25, 0⟩,
              nextRun := dayStart now + 90000000 } ∧
      Code1.parse now ("at 25:00") =
        .ok { timestamp := dayStart now + 90000000, interval := none,
              isRecurring := false } := by
  intro now
  constructor
  · have hd : Code3.matchDaily (clean ("daily 25:00")) = some (25, some 0, none) := rfl
    simp only [Code3.parse, hd, Option.getD_some]
    rw [show Code3.parseTime 25 0 none = ⟨25, 0⟩ from rfl, getNextDailyRun_hour25]
  · have h1 : Code1.matchRelative (clean ("at 25:00")) = none := rfl
    have h2 : Code1.matchRecurring (clean ("at 25:00")) = none := rfl
    have h3 : Code1.matchTomorrow1 (clean ("at 25:00")) = none := rfl
    have h4 : Code1.matchAbsolute (clean ("at 25:00")) = some (25, some 0, none) := rfl
    simp only [Code1.parse, h1, h2, h3, h4, Option.getD_some]
    rw [code1_absolute_hour25]

/-! ## Claim C9 -/

theorem calculateTimeToday_12am (now m : Nat) :
    Code1.calculateTimeToday now 12 m (some Mer.am) = dayStart now + m * 60000 := by
  show dayStart now + 0 * 3600000 + m * 60000 = dayStart now + m * 60000
  omega

theorem calculateTimeToday_12pm (now m : Nat) :
    Code1.calculateTimeToday now 12 m (some Mer.pm) =
      dayStart now + 43200000 + m * 60000 := by
  show dayStart now + 12 * 3600000 + m * 60000 = dayStart now + 43200000 + m * 60000
  omega

theorem code1_parse_at12am (now : Nat) :
    Code1.parse now ("at 12am") =
      .ok { timestamp := if dayStart now < now then dayStart now + 86400000
                         else dayStart now,
            interval := none, isRecurring := false } := by
  have h1 : Code1.matchRelative (clean ("at 12am")) = none := rfl
  have h2 : Code1.matchRecurring (clean ("at 12am")) = none := rfl
  have h3 : Code1.matchTomorrow1 (clean ("at 12am")) = none := rfl
  have h4 : Code1.matchAbsolute (clean ("at 12am")) = some (12, none, some Mer.am) := rfl
  simp only [Code1.parse, h1, h2, h3, h4, Option.getD_none]
  rw [show Code1.calculateTimeToday now 12 0 (some Mer.am) = dayStart now from by
    simpa using calculateTimeToday_12am now 0]

theorem code1_parse_at12pm (now : Nat) :
    Code1.parse now ("at 12pm") =
      .ok { timestamp := if dayStart now + 43200000 < now then
                           dayStart now + 43200000 + 86400000
                         else dayStart now + 43200000,
            interval := none, isRecurring := false } := by
  have h1 : Code1.matchRelative (clean ("at 12pm")) = none := rfl
  have h2 : Code1.matchRecurring (clean ("at 12pm")) = none := rfl
  have h3 : Code1.matchTomorrow1 (clean ("at 12pm")) = none := rfl
  have h4 : Code1.matchAbsolute (clean ("at 12pm")) = some (12, none, some Mer.pm) := rfl
  simp only [Code1.parse, h1, h2, h3, h4, Option.getD_none]
  rw [show Code1.calculateTimeToday now 12 0 (some Mer.pm) = dayStart now + 43200000 from by
    simpa using calculateTimeToday_12pm now 0]

/-- **C9.**  The meridiem conversion maps 12 am to hour 0 and keeps
12 pm at hour 12, in both parsers: code3's `parseTime` yields time-of-day
00:min for `12:min am` and 12:min for `12:min pm`; code1's
`calculateTimeToday` builds midnight resp. noon; and parsing `"at 12am"`
/ `"at 12pm"` with code1 yields a timestamp whose time-of-day is exactly
00:00 resp. 12:00 (never 24:00), whatever the current time. -/
theorem c9_noon_midnight_conversion :
    (∀ m, Code3.parseTime 12 m (some Mer.am) = ⟨0, m⟩) ∧
    (∀ m, Code3.parseTime 12 m (some Mer.pm) = ⟨12, m⟩) ∧
    (∀ now m, Code1.calculateTimeToday now 12 m (some Mer.am) =
        dayStart now + m * 60000) ∧
    (∀ now m, Code1.calculateTimeToday now 12 m (some Mer.pm) =
        dayStart now + 43200000 + m * 60000) ∧
    (∀ now, ∃ p, Code1.parse now ("at 12am") = .ok p ∧
        p.timestamp % 86400000 = 0) ∧
    (∀ now, ∃ p, Code1.parse now ("at 12pm") = .ok p ∧
        p.timestamp % 86400000 = 43200000) := by
  refine ⟨fun m => rfl, fun m => rfl, calculateTimeToday_12am,
    calculateTimeToday_12pm, ?_, ?_⟩
  · intro now
    refine ⟨_, code1_parse_at12am now, ?_⟩
    show (if dayStart now < now then dayStart now + 86400000 else dayStart now) %
      86400000 = 0
    simp only [dayStart]
    split <;> omega
  · intro now
    refine ⟨_, code1_parse_at12pm now, ?_⟩
    show (if dayStart now + 43200000 < now then dayStart now + 43200000 + 86400000
          else dayStart now + 43200000) % 86400000 = 43200000
    simp only [dayStart]
    split <;> omega

/-! ## Claim C10: template substitution (`ScheduleManager.processMessage`) -/

/-- `String.prototype.replace` with a plain string pattern: replace only
the **first** occurrence of `p` by `r` (identity when `p` does not
occur). -/
def replaceFirst (p r : List Char) : List Char → List Char
  | [] => if p = [] then r else []
  | c :: rest =>
    if p.isPrefixOf (c :: rest) then r ++ (c :: rest).drop p.length
    else c :: replaceFirst p r rest

/-- Does `p` occur as a contiguous substring? -/
def occursIn (p : List Char) : List Char → Bool
  | [] => p.isPrefixOf []
  | c :: rest => p.isPrefixOf (c :: rest) || occursIn p rest

/-- The `{date}` template marker. -/
def dateMarker : List Char := ("{date}").data

/-- The `{time}` template marker. -/
def timeMarker : List Char := ("{time}").data

/-- The `{day}` template marker. -/
def dayMarker : List Char := ("{day}").data

namespace Code3

/-- `ScheduleManager.processMessage`: chained single-occurrence
replacement of the three markers, with the substituted values
(`toLocaleDateString` / `toLocaleTimeString` / weekday name, computed at
send time) passed in as parameters. -/
def processMessage (dateStr timeStr dayStr : List Char) (template : List Char) :
    List Char :=
  replaceFirst dayMarker dayStr
    (replaceFirst timeMarker timeStr
      (replaceFirst dateMarker dateStr template))

end Code3

theorem nil_isPrefixOf (l : List Char) : ([] : List Char).isPrefixOf l = true := by
  cases l <;> rfl

theorem isPrefixOf_append_self (p b : List Char) : p.isPrefixOf (p ++ b) = true := by
  induction p with
  | nil => exact nil_isPrefixOf _
  | cons c p ih => simp [List.isPrefixOf, ih]

theorem drop_len_append (p b : List Char) : (p ++ b).drop p.length = b := by
  induction p with
  | nil => rfl
  | cons c p ih => simp [ih]

theorem take_len_add (a : List Char) (x : List Char) (k : Nat) :
    (a ++ x).take (a.length + k) = a ++ x.take k := by
  induction a with
  | nil => simp
  | cons c a ih =>
    show (c :: (a ++ x)).take (a.length + 1 + k) = c :: (a ++ x.take k)
    have : a.length + 1 + k = (a.length + k) + 1 := by omega
    rw [this, List.take_succ_cons, ih]

theorem take_of_le_len (x : List Char) :
    ∀ (b : List Char) (k : Nat), k ≤ x.length → (x ++ b).take k = x.take k := by
  induction x with
  | nil =>
    intro b k hk
    have hk0 : k = 0 := Nat.le_zero.1 (by simpa using hk)
    subst hk0
    simp
  | cons c x ih =>
    intro b k hk
    cases k with
    | zero => rfl
    | succ k =>
      rw [List.cons_append, List.take_succ_cons, List.take_succ_cons,
        ih b k (by simpa using hk)]

theorem isPrefixOf_take {p : List Char} :
    ∀ {s : List Char} {n : Nat}, p.isPrefixOf s = true → p.length ≤ n →
      p.isPrefixOf (s.take n) = true := by
  induction p with
  | nil => intro s n _ _; exact nil_isPrefixOf _
  | cons c p ih =>
    intro s n hp hn
    cases s with
    | nil => exact absurd hp (by simp [List.isPrefixOf])
    | cons d s =>
      cases n with
      | zero => exact absurd hn (by simp)
      | succ n =>
        rw [List.take_succ_cons]
        rw [List.isPrefixOf] at hp ⊢
        rw [Bool.and_eq_true] at hp
        rw [Bool.and_eq_true]
        exact ⟨hp.1, ih hp.2 (by simpa using hn)⟩

theorem occursIn_of_isPrefixOf {p s : List Char} (h : p.isPrefixOf s = true) :
    occursIn p s = true := by
  cases s with
  | nil => exact h
  | cons c rest =>
    rw [occursIn, h]
    rfl

/-- `replaceFirst` leaves a pattern-free string unchanged. -/
theorem replaceFirst_not_occurs (p r : List Char) :
    ∀ s : List Char, occursIn p s = false → replaceFirst p r s = s := by
  intro s
  induction s with
  | nil =>
    intro h
    rw [occursIn] at h
    rw [replaceFirst, if_neg]
    intro hpe
    rw [hpe] at h
    exact absurd h (by simp [List.isPrefixOf])
  | cons c rest ih =>
    intro h
    rw [occursIn, Bool.or_eq_false_iff] at h
    rw [replaceFirst, if_neg (by rw [h.1]; exact Bool.false_ne_true), ih h.2]

/-- `replaceFirst` rewrites exactly the first occurrence: if `p` does not
occur before position `|a|` (no occurrence inside `a ++ p.dropLast`),
then the occurrence there is replaced and everything after it — any later
occurrence included — is emitted verbatim. -/
theorem replaceFirst_first_occurrence (p r : List Char) (hp : p ≠ []) :
    ∀ a b : List Char, occursIn p (a ++ p.dropLast) = false →
      replaceFirst p r (a ++ (p ++ b)) = a ++ (r ++ b) := by
  intro a
  induction a with
  | nil =>
    intro b _
    obtain ⟨c, p', rfl⟩ : ∃ c p', p = c :: p' := by
      cases p with
      | nil => exact absurd rfl hp
      | cons c p' => exact ⟨c, p', rfl⟩
    show replaceFirst (c :: p') r (c :: (p' ++ b)) = r ++ b
    rw [replaceFirst, if_pos (show (c :: p').isPrefixOf (c :: (p' ++ b)) = true from
      isPrefixOf_append_self (c :: p') b)]
    have hd : (c :: (p' ++ b)).drop (c :: p').length = b := drop_len_append (c :: p') b
    rw [hd]
  | cons x a ih =>
    intro b hocc
    rw [List.cons_append, occursIn, Bool.or_eq_false_iff] at hocc
    have h1p : 1 ≤ p.length := by
      cases p with
      | nil => exact absurd rfl hp
      | cons c p' => simp
    have hcond : p.isPrefixOf (x :: (a ++ (p ++ b))) = false := by
      by_contra hne
      rw [Bool.not_eq_false] at hne
      have hlen : p.length ≤ (a ++ p.dropLast).length + 1 := by
        rw [List.length_append, List.length_dropLast]
        omega
      have htake := isPrefixOf_take hne hlen
      have hshape : (x :: (a ++ (p ++ b))).take ((a ++ p.dropLast).length + 1) =
          x :: (a ++ p.dropLast) := by
        rw [List.take_succ_cons, List.length_append, List.length_dropLast,
          take_len_add, take_of_le_len p b (p.length - 1) (by omega),
          ← List.dropLast_eq_take]
      rw [hshape] at htake
      rw [hocc.1] at htake
      exact absurd htake Bool.false_ne_true
    show replaceFirst p r (x :: (a ++ (p ++ b))) = x :: (a ++ (r ++ b))
    rw [replaceFirst, if_neg (by simp [hcond]), ih b hocc.2]

/-- **C10.**  Template substitution at delivery time replaces only the
first occurrence of each marker `{date}`, `{time}`, `{day}`; any second
or later occurrence is delivered verbatim.  Formally: `replaceFirst`
(the embedding of `String.prototype.replace` with a string pattern)
rewrites exactly the first occurrence and copies the rest of the string
— later occurrences included — unchanged, leaves marker-free strings
unchanged, and `processMessage` is exactly the chained
`{date}`/`{time}`/`{day}` replacement. -/
theorem c10_first_occurrence_only :
    (∀ (p r a b : List Char), p ≠ [] → occursIn p (a ++ p.dropLast) = false →
        replaceFirst p r (a ++ (p ++ b)) = a ++ (r ++ b)) ∧
    (∀ (p r s : List Char), occursIn p s = false → replaceFirst p r s = s) ∧
    (∀ (ds ts dys t : List Char),
        Code3.processMessage ds ts dys t =
          replaceFirst dayMarker dys
            (replaceFirst timeMarker ts (replaceFirst dateMarker ds t))) :=
  ⟨fun p r a b hp hocc => replaceFirst_first_occurrence p r hp a b hocc,
   fun p r s h => replaceFirst_not_occurs p r s h,
   fun _ _ _ _ => rfl⟩

/-- Closed instance of C10: in `"x{date}y{date}z"` only the first
`{date}` is substituted; the second is delivered verbatim. -/
theorem c10_first_occurrence_only_witness :
    replaceFirst dateMarker (("D").data)
        ((("x").data) ++ (dateMarker ++ (("y{date}z").data))) =
      (("x").data) ++ ((("D").data) ++ (("y{date}z").data)) :=
  c10_first_occurrence_only.1 dateMarker (("D").data) (("x").data)
    (("y{date}z").data) (by decide) (by decide)

/-! ## `find?` facts used to trace one task through a scan -/

theorem find?_filter_ne {α : Type} (gid : α → Nat) (l : List α) {tid uid : Nat}
    (h : uid ≠ tid) :
    (l.filter fun u => gid u ≠ uid).find? (fun u => gid u = tid) =
      l.find? (fun u => gid u = tid) := by
  induction l with
  | nil => rfl
  | cons a l ih =>
    rw [List.filter_cons]
    by_cases ha : gid a = tid
    · rw [if_pos (by simp only [decide_eq_true_eq]; rw [ha]; exact Ne.symm h),
        List.find?_cons_of_pos _ (by simp [ha]), List.find?_cons_of_pos _ (by simp [ha])]
    · by_cases hu : gid a = uid
      · rw [if_neg (by simp [hu]), List.find?_cons_of_neg _ (by simp [ha]), ih]
      · rw [if_pos (by simp [hu]), List.find?_cons_of_neg _ (by simp [ha]),
          List.find?_cons_of_neg _ (by simp [ha]), ih]

theorem find?_filter_self {α : Type} (gid : α → Nat) (l : List α) (tid : Nat) :
    (l.filter fun u => gid u ≠ tid).find? (fun u => gid u = tid) = none := by
  rw [List.find?_eq_none]
  intro x hx
  rw [List.mem_filter] at hx
  simpa using hx.2

theorem find?_map_pres {α : Type} (gid : α → Nat) (f : α → α)
    (hf : ∀ u, gid (f u) = gid u) (l : List α) (tid : Nat) :
    (l.map f).find? (fun u => gid u = tid) =
      (l.find? (fun u => gid u = tid)).map f := by
  induction l with
  | nil => rfl
  | cons a l ih =>
    rw [List.map_cons]
    by_cases ha : gid a = tid
    · rw [List.find?_cons_of_pos _ (by simp [hf, ha]),
        List.find?_cons_of_pos _ (by simp [ha])]
      rfl
    · rw [List.find?_cons_of_neg _ (by simp [hf, ha]),
        List.find?_cons_of_neg _ (by simp [ha]), ih]

theorem find?_eq_some_of_mem_nodup {α : Type} (gid : α → Nat) {l : List α}
    (hnd : (l.map gid).Nodup) {t : α} (ht : t ∈ l) :
    l.find? (fun u => gid u = gid t) = some t := by
  induction l with
  | nil => exact absurd ht (List.not_mem_nil t)
  | cons a l ih =>
    rw [List.map_cons, List.nodup_cons] at hnd
    rcases List.mem_cons.1 ht with rfl | ht1
    · rw [List.find?_cons_of_pos _ (by simp)]
    · by_cases ha : gid a = gid t
      · exact absurd (ha ▸ List.mem_map_of_mem gid ht1) hnd.1
      · rw [List.find?_cons_of_neg _ (by simp [ha]), ih hnd.2 ht1]

/-! ## Tracing one due schedule through a code3 scan -/

namespace Code3

theorem stepCheck_lookup_ne (now : Nat) (dv : Nat → Bool) (s : St) (t : Schedule)
    {tid : Nat} (hne : t.id ≠ tid) :
    lookup (stepCheck now dv s t) tid = lookup s tid := by
  have hmap : ∀ (g : Schedule → Schedule), (∀ u, (g u).id = u.id) →
      (s.schedules.map fun u => if u.id = t.id then g u else u).find?
          (fun u => u.id = tid) =
        s.schedules.find? (fun u => u.id = tid) := by
    intro g hg
    rw [find?_map_pres Schedule.id _
      (fun v => by by_cases h : v.id = t.id
                   · rw [if_pos h, hg, h]
                   · rw [if_neg h]) s.schedules tid]
    cases hf : s.schedules.find? (fun u => u.id = tid) with
    | none => rfl
    | some v =>
      have hv := List.find?_some hf
      rw [decide_eq_true_eq] at hv
      show some (if v.id = t.id then g v else v) = some v
      rw [if_neg (by rw [hv]; exact Ne.symm hne)]
  unfold stepCheck lookup
  split
  · split
    · exact find?_filter_ne Schedule.id s.schedules (Ne.symm (Ne.symm hne))
    · split
      · exact hmap (fun u => { u with nextRun := u.nextRun + 86400000 }) (fun u => rfl)
      · exact hmap (fun u => { u with nextRun := u.nextRun + 604800000 }) (fun u => rfl)
      · rfl
    · exact hmap (fun u => { u with nextRun := now + t.intervalMs.getD 0 }) (fun u => rfl)
  · rfl

theorem stepCheck_idx_ne (now : Nat) (dv : Nat → Bool) (s : St) (t : Schedule)
    {tid : Nat} (hne : t.id ≠ tid) (c : String) :
    (tid ∈ (stepCheck now dv s t).channelSchedules c) ↔
      tid ∈ s.channelSchedules c := by
  unfold stepCheck
  split
  · split
    · show tid ∈ idxDel s.channelSchedules t.channelId t.id c ↔ _
      rw [idxDel_eq]
      by_cases hc : c = t.channelId
      · rw [if_pos hc, hc]
        exact List.mem_erase_of_ne (Ne.symm hne)
      · rw [if_neg hc]
    · split
      · exact Iff.rfl
      · exact Iff.rfl
      · exact Iff.rfl
    · exact Iff.rfl
  · exact Iff.rfl

theorem stepCheck_idx_nodup (now : Nat) (dv : Nat → Bool) (s : St) (t : Schedule)
    (h : ∀ c, (s.channelSchedules c).Nodup) :
    ∀ c, ((stepCheck now dv s t).channelSchedules c).Nodup := by
  unfold stepCheck
  split
  · split
    · exact fun c => nodup_idxDel h c
    · split
      · exact h
      · exact h
      · exact h
    · exact h
  · exact h

theorem foldCheck_lookup_ne (now : Nat) (dv : Nat → Bool) (l : List Schedule) :
    ∀ (s : St) (tid : Nat), (∀ u ∈ l, u.id ≠ tid) →
      lookup (l.foldl (stepCheck now dv) s) tid = lookup s tid ∧
      ∀ c, (tid ∈ (l.foldl (stepCheck now dv) s).channelSchedules c ↔
        tid ∈ s.channelSchedules c) := by
  induction l with
  | nil => exact fun s tid _ => ⟨rfl, fun c => Iff.rfl⟩
  | cons u l ih =>
    intro s tid h
    rw [List.foldl_cons]
    obtain ⟨ih1, ih2⟩ := ih (stepCheck now dv s u) tid
      (fun v hv => h v (List.mem_cons_of_mem u hv))
    refine ⟨ih1.trans (stepCheck_lookup_ne now dv s u (h u (List.mem_cons_self u l))), ?_⟩
    intro c
    exact (ih2 c).trans (stepCheck_idx_ne now dv s u (h u (List.mem_cons_self u l)) c)

theorem foldCheck_idx_nodup (now : Nat) (dv : Nat → Bool) (l : List Schedule) :
    ∀ (s : St), (∀ c, (s.channelSchedules c).Nodup) →
      ∀ c, ((l.foldl (stepCheck now dv) s).channelSchedules c).Nodup := by
  induction l with
  | nil => exact fun s h => h
  | cons u l ih =>
    intro s h
    rw [List.foldl_cons]
    exact ih _ (stepCheck_idx_nodup now dv s u h)

/-- The state one `stepCheck` leaves for a delivered `once` schedule. -/
theorem stepCheck_state_once (now : Nat) (dv : Nat → Bool) (s : St) (t : Schedule)
    (hdv : dv t.id = true) (htype : t.type = .once) :
    stepCheck now dv s t =
      { s with schedules := s.schedules.filter fun u => u.id ≠ t.id,
               channelSchedules := idxDel s.channelSchedules t.channelId t.id } := by
  unfold stepCheck
  rw [if_pos hdv, htype]

/-- The state one `stepCheck` leaves for a delivered daily schedule. -/
theorem stepCheck_state_daily (now : Nat) (dv : Nat → Bool) (s : St) (t : Schedule)
    (hdv : dv t.id = true) (htype : t.type = .recurring)
    (hint : t.interval = some .daily) :
    stepCheck now dv s t =
      { s with schedules := s.schedules.map fun u =>
          if u.id = t.id then { u with nextRun := u.nextRun + 86400000 } else u } := by
  unfold stepCheck
  rw [if_pos hdv, htype, hint]

/-- The state one `stepCheck` leaves for a delivered weekly schedule. -/
theorem stepCheck_state_weekly (now : Nat) (dv : Nat → Bool) (s : St) (t : Schedule)
    (hdv : dv t.id = true) (htype : t.type = .recurring)
    (hint : t.interval = some .weekly) :
    stepCheck now dv s t =
      { s with schedules := s.schedules.map fun u =>
          if u.id = t.id then { u with nextRun := u.nextRun + 604800000 } else u } := by
  unfold stepCheck
  rw [if_pos hdv, htype, hint]

/-- The state one `stepCheck` leaves for a delivered interval schedule. -/
theorem stepCheck_state_interval (now : Nat) (dv : Nat → Bool) (s : St) (t : Schedule)
    (k : Nat) (hdv : dv t.id = true) (htype : t.type = .interval)
    (hk : t.intervalMs = some k) :
    stepCheck now dv s t =
      { s with schedules := s.schedules.map fun u =>
          if u.id = t.id then { u with nextRun := now + k } else u } := by
  unfold stepCheck
  rw [if_pos hdv, htype, hk]
  rfl

/-- The master scan lemma for code3: a due, enabled schedule whose
delivery succeeds is rescheduled (or removed) exactly per the reschedule
table, and a removed `once` schedule also leaves its channel's index
set. -/
theorem check_lookup_due (s : St) (now : Nat) (dv : Nat → Bool) (t : Schedule)
    (hnd : (s.schedules.map Schedule.id).Nodup)
    (hidxnd : ∀ c, (s.channelSchedules c).Nodup)
    (ht : t ∈ s.schedules) (hen : t.enabled = true) (hdue : t.nextRun ≤ now)
    (hdv : dv t.id = true) :
    (t.type = .once →
       lookup (check s now dv).1 t.id = none ∧
       t.id ∉ ((check s now dv).1).channelSchedules t.channelId) ∧
    (t.type = .recurring → t.interval = some .daily →
       lookup (check s now dv).1 t.id =
         some { t with nextRun := t.nextRun + 86400000 }) ∧
    (t.type = .recurring → t.interval = some .weekly →
       lookup (check s now dv).1 t.id =
         some { t with nextRun := t.nextRun + 604800000 }) ∧
    (∀ k, t.type = .interval → t.intervalMs = some k →
       lookup (check s now dv).1 t.id = some { t with nextRun := now + k }) := by
  have htd : t ∈ dueList s now := List.mem_filter.2 ⟨ht, by simp [hen, hdue]⟩
  obtain ⟨l₁, l₂, hsplit⟩ := List.append_of_mem htd
  have hdnd : ((dueList s now).map Schedule.id).Nodup :=
    ((List.filter_sublist _).map _).nodup hnd
  rw [hsplit, List.map_append, List.map_cons, List.nodup_append] at hdnd
  obtain ⟨hnd₁, hnd₂, hdisj⟩ := hdnd
  rw [List.nodup_cons] at hnd₂
  have hl₁ : ∀ u ∈ l₁, u.id ≠ t.id := by
    intro u hu heq
    refine hdisj (List.mem_map_of_mem Schedule.id hu) ?_
    rw [heq]
    exact List.mem_cons_self _ _
  have hl₂ : ∀ u ∈ l₂, u.id ≠ t.id := by
    intro u hu heq
    exact hnd₂.1 (heq ▸ List.mem_map_of_mem Schedule.id hu)
  have hstate : (check s now dv).1 =
      l₂.foldl (stepCheck now dv)
        (stepCheck now dv (l₁.foldl (stepCheck now dv) s) t) := by
    show (dueList s now).foldl (stepCheck now dv) s = _
    rw [hsplit, List.foldl_append, List.foldl_cons]
  obtain ⟨h₁l, h₁i⟩ := foldCheck_lookup_ne now dv l₁ s t.id hl₁
  have hlt : lookup s t.id = some t := find?_eq_some_of_mem_nodup Schedule.id hnd ht
  have hs₁t : lookup (l₁.foldl (stepCheck now dv) s) t.id = some t := h₁l.trans hlt
  have hs₁nd : ∀ c, ((l₁.foldl (stepCheck now dv) s).channelSchedules c).Nodup :=
    foldCheck_idx_nodup now dv l₁ s hidxnd
  obtain ⟨h₂l, h₂i⟩ := foldCheck_lookup_ne now dv l₂
    (stepCheck now dv (l₁.foldl (stepCheck now dv) s) t) t.id hl₂
  have hmap : ∀ (g : Schedule → Schedule), (∀ u, (g u).id = u.id) →
      lookup { l₁.foldl (stepCheck now dv) s with
               schedules := (l₁.foldl (stepCheck now dv) s).schedules.map fun u =>
                 if u.id = t.id then g u else u } t.id = some (g t) := by
    intro g hg
    show ((l₁.foldl (stepCheck now dv) s).schedules.map fun u =>
        if u.id = t.id then g u else u).find? (fun u => u.id = t.id) = some (g t)
    rw [find?_map_pres Schedule.id _
      (fun v => by by_cases h : v.id = t.id
                   · rw [if_pos h, hg, h]
                   · rw [if_neg h]) _ t.id]
    rw [show (l₁.foldl (stepCheck now dv) s).schedules.find? (fun u => u.id = t.id) =
      some t from hs₁t]
    show some (if t.id = t.id then g t else t) = some (g t)
    rw [if_pos rfl]
  refine ⟨?_, ?_, ?_, ?_⟩
  · intro htype
    constructor
    · rw [hstate, h₂l, stepCheck_state_once now dv _ t hdv htype]
      exact find?_filter_self Schedule.id _ t.id
    · rw [hstate]
      intro hmem
      have hmem' := (h₂i t.channelId).1 hmem
      rw [stepCheck_state_once now dv _ t hdv htype] at hmem'
      have : t.id ∈ idxDel (l₁.foldl (stepCheck now dv) s).channelSchedules
          t.channelId t.id t.channelId := hmem'
      rw [idxDel_eq, if_pos rfl] at this
      exact ((hs₁nd t.channelId).mem_erase_iff.1 this).1 rfl
  · intro htype hint
    rw [hstate, h₂l, stepCheck_state_daily now dv _ t hdv htype hint]
    exact hmap (fun u => { u with nextRun := u.nextRun + 86400000 }) (fun u => rfl)
  · intro htype hint
    rw [hstate, h₂l, stepCheck_state_weekly now dv _ t hdv htype hint]
    exact hmap (fun u => { u with nextRun := u.nextRun + 604800000 }) (fun u => rfl)
  · intro k htype hk
    rw [hstate, h₂l, stepCheck_state_interval now dv _ t k hdv htype hk]
    exact hmap (fun u => { u with nextRun := now + k }) (fun u => rfl)

end Code3

/-- `count a l = 1` for a member of a duplicate-free list. -/
theorem count_eq_one_of_nodup_mem {l : List Nat} (hnd : l.Nodup) {a : Nat}
    (ha : a ∈ l) : l.count a = 1 :=
  le_antisymm (List.nodup_iff_count_le_one.1 hnd a) (List.count_pos_iff.2 ha)

/-! ## Tracing one due reminder through a code1 scan -/

namespace Code1

theorem secondPassStep_state (s : St) (u : Reminder)
    (h1 : u.triggered = true) (h2 : u.isRecurring = false) :
    secondPassStep s u =
      { reminders := s.reminders.filter fun v => v.id ≠ u.id,
        userReminders := idxDel s.userReminders u.userId u.id,
        nextId := s.nextId } := by
  unfold secondPassStep
  rw [if_pos ⟨by simp [h1], by simp [h2]⟩]

theorem secondPassStep_lookup_pres (s : St) (u : Reminder) {tid : Nat}
    (h : u.triggered = true → u.isRecurring = false → u.id ≠ tid) :
    lookup (secondPassStep s u) tid = lookup s tid := by
  unfold secondPassStep lookup
  split
  · next hcond =>
    exact find?_filter_ne Reminder.id s.reminders
      (Ne.symm (Ne.symm (h (by simpa using hcond.1) (by simpa using hcond.2))))
  · rfl

theorem secondPassStep_idx_pres (s : St) (u : Reminder) {tid : Nat}
    (h : u.triggered = true → u.isRecurring = false → u.id ≠ tid) (c : String) :
    (tid ∈ (secondPassStep s u).userReminders c) ↔ tid ∈ s.userReminders c := by
  unfold secondPassStep
  split
  · next hcond =>
    have hne := h (by simpa using hcond.1) (by simpa using hcond.2)
    show tid ∈ idxDel s.userReminders u.userId u.id c ↔ _
    rw [idxDel_eq]
    by_cases hc : c = u.userId
    · rw [if_pos hc, hc]
      exact List.mem_erase_of_ne (Ne.symm hne)
    · rw [if_neg hc]
  · exact Iff.rfl

theorem secondPassStep_idx_nodup (s : St) (u : Reminder)
    (h : ∀ c, (s.userReminders c).Nodup) :
    ∀ c, ((secondPassStep s u).userReminders c).Nodup := by
  unfold secondPassStep
  split
  · exact fun c => nodup_idxDel h c
  · exact h

theorem foldPass2_pres (l : List Reminder) :
    ∀ (s : St) (tid : Nat),
      (∀ u ∈ l, u.triggered = true → u.isRecurring = false → u.id ≠ tid) →
      lookup (l.foldl secondPassStep s) tid = lookup s tid ∧
      ∀ c, (tid ∈ (l.foldl secondPassStep s).userReminders c ↔
        tid ∈ s.userReminders c) := by
  induction l with
  | nil => exact fun s tid _ => ⟨rfl, fun c => Iff.rfl⟩
  | cons u l ih =>
    intro s tid h
    rw [List.foldl_cons]
    obtain ⟨ih1, ih2⟩ := ih (secondPassStep s u) tid
      (fun v hv => h v (List.mem_cons_of_mem u hv))
    refine ⟨ih1.trans (secondPassStep_lookup_pres s u (h u (List.mem_cons_self u l))), ?_⟩
    intro c
    exact (ih2 c).trans (secondPassStep_idx_pres s u (h u (List.mem_cons_self u l)) c)

theorem foldPass2_idx_nodup (l : List Reminder) :
    ∀ (s : St), (∀ c, (s.userReminders c).Nodup) →
      ∀ c, ((l.foldl secondPassStep s).userReminders c).Nodup := by
  induction l with
  | nil => exact fun s h => h
  | cons u l ih =>
    intro s h
    rw [List.foldl_cons]
    exact ih _ (secondPassStep_idx_nodup s u h)

theorem firstPass_recurring (now : Nat) (r : Reminder) (k : Nat)
    (h1 : r.triggered = false) (h2 : r.timestamp ≤ now)
    (h3 : r.isRecurring = true) (hk : r.interval = some k) (hk0 : k ≠ 0) :
    firstPass now r = { r with timestamp := now + k } := by
  unfold firstPass
  rw [if_pos ⟨by simp [h1], h2⟩,
    if_pos (by simp [h3, intervalTruthy, hk, hk0]), hk]
  rfl

theorem firstPass_once (now : Nat) (r : Reminder)
    (h1 : r.triggered = false) (h2 : r.timestamp ≤ now)
    (h3 : r.isRecurring = false) :
    firstPass now r = { r with triggered := true } := by
  unfold firstPass
  rw [if_pos ⟨by simp [h1], h2⟩, if_neg (by simp [h3])]

/-- After pass 1 the primary map holds the `firstPass` image of each
entry. -/
theorem lookup_map_firstPass (s : St) (now : Nat) (tid : Nat) :
    lookup { s with reminders := s.reminders.map (firstPass now) } tid =
      (lookup s tid).map (firstPass now) := by
  show (s.reminders.map (firstPass now)).find? (fun u => u.id = tid) =
    (s.reminders.find? (fun u => u.id = tid)).map (firstPass now)
  exact find?_map_pres Reminder.id (firstPass now)
    (fun u => (firstPass_fields now u).1) s.reminders tid

/-- The due snapshot of one code1 tick (`triggered` list before
emission). -/
theorem check_trig (s : St) (now : Nat) (saveOk : Bool) :
    (check s now saveOk).2 =
      (if ((s.reminders.filter fun r => ¬ r.triggered ∧ r.timestamp ≤ now).map
          (firstPass now)).isEmpty then []
       else if saveOk then
         (s.reminders.filter fun r => ¬ r.triggered ∧ r.timestamp ≤ now).map
           (firstPass now)
       else []) := rfl

/-- The state of one code1 tick: pass 2 folded over the pass-1 image. -/
theorem check_state (s : St) (now : Nat) (saveOk : Bool) :
    (check s now saveOk).1 =
      ({ s with reminders := s.reminders.map (firstPass now) } : St).reminders.foldl
        secondPassStep
        { s with reminders := s.reminders.map (firstPass now) } := rfl

/-- The master scan lemma for code1's recurring reschedule: a due,
untriggered recurring reminder with a truthy interval ends the tick with
`timestamp = now + interval`. -/
theorem check_lookup_recurring (s : St) (now : Nat) (saveOk : Bool)
    (r : Reminder) (k : Nat)
    (hnd : (s.reminders.map Reminder.id).Nodup)
    (hr : r ∈ s.reminders) (h1 : r.triggered = false) (h2 : r.timestamp ≤ now)
    (h3 : r.isRecurring = true) (hk : r.interval = some k) (hk0 : k ≠ 0) :
    lookup (check s now saveOk).1 r.id = some { r with timestamp := now + k } := by
  have hnd1 : ((s.reminders.map (firstPass now)).map Reminder.id).Nodup := by
    have : (s.reminders.map (firstPass now)).map Reminder.id =
        s.reminders.map Reminder.id := by
      rw [List.map_map]
      exact List.map_congr_left fun u _ => (firstPass_fields now u).1
    rw [this]
    exact hnd
  have hcond : ∀ u ∈ s.reminders.map (firstPass now),
      u.triggered = true → u.isRecurring = false → u.id ≠ r.id := by
    intro u hu htr hrec heq
    have hru : firstPass now r ∈ s.reminders.map (firstPass now) :=
      List.mem_map_of_mem _ hr
    have hueq : u = firstPass now r :=
      eq_of_nodup_map Reminder.id hnd1 u hu (firstPass now r) hru
        (by rw [heq, (firstPass_fields now r).1])
    rw [hueq, firstPass_recurring now r k h1 h2 h3 hk hk0] at hrec
    simp [h3] at hrec
  obtain ⟨hfl, -⟩ := foldPass2_pres
    (({ s with reminders := s.reminders.map (firstPass now) } : St).reminders)
    { s with reminders := s.reminders.map (firstPass now) } r.id hcond
  rw [check_state, hfl, lookup_map_firstPass,
    show lookup s r.id = some r from find?_eq_some_of_mem_nodup Reminder.id hnd hr]
  show some (firstPass now r) = _
  rw [firstPass_recurring now r k h1 h2 h3 hk hk0]

/-- The master scan lemma for code1's one-time reminders: a due,
untriggered one-time reminder is removed from both maps by the tick. -/
theorem check_once_removed (s : St) (now : Nat) (r : Reminder)
    (hnd : (s.reminders.map Reminder.id).Nodup)
    (hidxnd : ∀ c, (s.userReminders c).Nodup)
    (hr : r ∈ s.reminders) (h3 : r.isRecurring = false)
    (h1 : r.triggered = false) (h2 : r.timestamp ≤ now) :
    lookup (check s now true).1 r.id = none ∧
    r.id ∉ ((check s now true).1).userReminders r.userId := by
  have hre : firstPass now r = { r with triggered := true } :=
    firstPass_once now r h1 h2 h3
  have hnd1 : ((s.reminders.map (firstPass now)).map Reminder.id).Nodup := by
    have : (s.reminders.map (firstPass now)).map Reminder.id =
        s.reminders.map Reminder.id := by
      rw [List.map_map]
      exact List.map_congr_left fun u _ => (firstPass_fields now u).1
    rw [this]
    exact hnd
  have hr' : ({ r with triggered := true } : Reminder) ∈
      s.reminders.map (firstPass now) := hre ▸ List.mem_map_of_mem _ hr
  obtain ⟨m₁, m₂, hsplit⟩ := List.append_of_mem hr'
  have hdnd := hnd1
  rw [hsplit, List.map_append, List.map_cons, List.nodup_append] at hdnd
  obtain ⟨hmnd₁, hmnd₂, hmdisj⟩ := hdnd
  rw [List.nodup_cons] at hmnd₂
  have hm₁ : ∀ u ∈ m₁, u.id ≠ r.id := by
    intro u hu heq
    refine hmdisj (List.mem_map_of_mem Reminder.id hu) ?_
    rw [heq]
    exact List.mem_cons_self _ _
  have hm₂ : ∀ u ∈ m₂, u.id ≠ r.id := by
    intro u hu heq
    exact hmnd₂.1 (heq ▸ List.mem_map_of_mem Reminder.id hu)
  have hstate : (check s now true).1 =
      m₂.foldl secondPassStep
        (secondPassStep (m₁.foldl secondPassStep
          { s with reminders := s.reminders.map (firstPass now) })
          { r with triggered := true }) := by
    have h0 : (check s now true).1 =
        (s.reminders.map (firstPass now)).foldl secondPassStep
          { s with reminders := s.reminders.map (firstPass now) } := rfl
    rw [h0, hsplit, List.foldl_append, List.foldl_cons]
  obtain ⟨h₁l, h₁i⟩ := foldPass2_pres m₁
    { s with reminders := s.reminders.map (firstPass now) } r.id
    (fun u hu _ _ => hm₁ u hu)
  have hs₁nd : ∀ c, ((m₁.foldl secondPassStep
      { s with reminders := s.reminders.map (firstPass now) }).userReminders c).Nodup :=
    foldPass2_idx_nodup m₁ _ hidxnd
  have hstep := secondPassStep_state
    (m₁.foldl secondPassStep { s with reminders := s.reminders.map (firstPass now) })
    { r with triggered := true } rfl h3
  obtain ⟨h₂l, h₂i⟩ := foldPass2_pres m₂
    (secondPassStep (m₁.foldl secondPassStep
      { s with reminders := s.reminders.map (firstPass now) })
      { r with triggered := true }) r.id
    (fun u hu _ _ => hm₂ u hu)
  constructor
  · rw [hstate, h₂l, hstep]
    exact find?_filter_self Reminder.id _ r.id
  · rw [hstate]
    intro hmem
    have hmem' := (h₂i r.userId).1 hmem
    rw [hstep] at hmem'
    have hmem'' : r.id ∈ idxDel (m₁.foldl secondPassStep
        { s with reminders := s.reminders.map (firstPass now) }).userReminders
        r.userId r.id r.userId := hmem'
    rw [idxDel_eq, if_pos rfl] at hmem''
    exact ((hs₁nd r.userId).mem_erase_iff.1 hmem'').1 rfl

/-- The emission list of a tick with a working save contains a due
one-shot reminder exactly once. -/
theorem check_emitted_once (s : St) (now : Nat) (r : Reminder)
    (hnd : (s.reminders.map Reminder.id).Nodup)
    (hr : r ∈ s.reminders) (h1 : r.triggered = false) (h2 : r.timestamp ≤ now) :
    (((check s now true).2).map Reminder.id).count r.id = 1 := by
  have hrf : r ∈ s.reminders.filter fun u => ¬ u.triggered ∧ u.timestamp ≤ now :=
    List.mem_filter.2 ⟨hr, by simp [h1, h2]⟩
  have hmem : firstPass now r ∈
      (s.reminders.filter fun u => ¬ u.triggered ∧ u.timestamp ≤ now).map
        (firstPass now) := List.mem_map_of_mem _ hrf
  have h2eq : (check s now true).2 =
      (s.reminders.filter fun u => ¬ u.triggered ∧ u.timestamp ≤ now).map
        (firstPass now) := by
    rw [check_trig, if_neg, if_pos rfl]
    intro habs
    rw [List.isEmpty_iff] at habs
    rw [habs] at hmem
    exact List.not_mem_nil _ hmem
  rw [h2eq]
  have hids : ((s.reminders.filter fun u => ¬ u.triggered ∧ u.timestamp ≤ now).map
      (firstPass now)).map Reminder.id =
      (s.reminders.filter fun u => ¬ u.triggered ∧ u.timestamp ≤ now).map
        Reminder.id := by
    rw [List.map_map]
    exact List.map_congr_left fun u _ => (firstPass_fields now u).1
  rw [hids]
  refine count_eq_one_of_nodup_mem (((List.filter_sublist _).map _).nodup hnd) ?_
  have : r.id = Reminder.id r := rfl
  rw [this]
  exact List.mem_map_of_mem _ hrf

/-- A reminder id absent from the primary map never shows in `list`. -/
theorem listUser_absent (s : St) (u : String) (tid : Nat)
    (h : lookup s tid = none) :
    tid ∉ (listUser s u).map Reminder.id := by
  intro hmem
  obtain ⟨x, hx, hxid⟩ := List.mem_map.1 hmem
  rw [listUser, mem_sortBy] at hx
  obtain ⟨tid', _, hfm⟩ := List.mem_filterMap.1 hx
  have hx' := List.find?_some hfm
  rw [decide_eq_true_eq] at hx'
  have hfinal : lookup s tid = some x := by
    rw [← hxid, hx']
    exact hfm
  rw [hfinal] at h
  exact Option.some_ne_none x h

end Code1

namespace Code3

/-- One scan delivers a due, enabled schedule whose send succeeds exactly
once. -/
theorem delivered_count_one (s : St) (now : Nat) (dv : Nat → Bool) (t : Schedule)
    (hnd : (s.schedules.map Schedule.id).Nodup)
    (ht : t ∈ s.schedules) (hen : t.enabled = true) (hdue : t.nextRun ≤ now)
    (hdv : dv t.id = true) :
    ((delivered s now dv).map Schedule.id).count t.id = 1 := by
  have h1 : t ∈ delivered s now dv :=
    List.mem_filter.2 ⟨List.mem_filter.2 ⟨ht, by simp [hen, hdue]⟩, by simp [hdv]⟩
  have h2 : ((delivered s now dv).map Schedule.id).Nodup :=
    (((List.filter_sublist _).trans (List.filter_sublist _)).map _).nodup hnd
  have : t.id = Schedule.id t := rfl
  rw [this]
  exact count_eq_one_of_nodup_mem h2 (List.mem_map_of_mem _ h1)

/-- A schedule id absent from the primary map never shows in `list`. -/
theorem listChannel_absent (s : St) (ch : String) (tid : Nat)
    (h : lookup s tid = none) :
    tid ∉ (listChannel s ch).map Schedule.id := by
  intro hmem
  obtain ⟨x, hx, hxid⟩ := List.mem_map.1 hmem
  rw [listChannel, mem_sortBy] at hx
  obtain ⟨tid', _, hfm⟩ := List.mem_filterMap.1 hx
  cases hl : lookup s tid' with
  | none =>
    rw [hl] at hfm
    exact absurd hfm (by simp)
  | some v =>
    rw [hl] at hfm
    have hfm' : (if v.enabled = true then some v else none) = some x := hfm
    have hv := List.find?_some hl
    rw [decide_eq_true_eq] at hv
    by_cases he : v.enabled = true
    · rw [if_pos he] at hfm'
      have hxv : v = x := Option.some.inj hfm'
      rw [← hv, hxv, hxid] at hl
      rw [hl] at h
      exact Option.some_ne_none x h
    · rw [if_neg he] at hfm'
      exact absurd hfm' (by simp)

end Code3

/-! ## Claim C2 -/

/-- **C2.**  When a scan fires a due task, the reschedule policy is
exactly: a daily recurring schedule gets `nextRun` increased by the
fixed constant 86400000 ms, a weekly one by 604800000 ms (both
increments of the stored `nextRun`, not recomputed from the wall
clock), and an interval task gets `nextRun = now + intervalMs`, anchored
to the scan's fire time `now` rather than to the previous `nextRun`.
The same holds for code1's recurring reminders (the `IntervalFromNow`
kind there): `timestamp = now + interval`. -/
theorem c2_reschedule_policy :
    (∀ (s : Code3.St) (now : Nat) (dv : Nat → Bool) (t : Code3.Schedule),
        (s.schedules.map Code3.Schedule.id).Nodup →
        (∀ c, (s.channelSchedules c).Nodup) →
        t ∈ s.schedules → t.enabled = true → t.nextRun ≤ now → dv t.id = true →
        (t.type = .recurring → t.interval = some .daily →
           Code3.lookup (Code3.check s now dv).1 t.id =
             some { t with nextRun := t.nextRun + 86400000 }) ∧
        (t.type = .recurring → t.interval = some .weekly →
           Code3.lookup (Code3.check s now dv).1 t.id =
             some { t with nextRun := t.nextRun + 604800000 }) ∧
        (∀ k, t.type = .interval → t.intervalMs = some k →
           Code3.lookup (Code3.check s now dv).1 t.id =
             some { t with nextRun := now + k })) ∧
    (∀ (s : Code1.St) (now : Nat) (saveOk : Bool) (r : Code1.Reminder) (k : Nat),
        (s.reminders.map Code1.Reminder.id).Nodup →
        r ∈ s.reminders → r.triggered = false → r.timestamp ≤ now →
        r.isRecurring = true → r.interval = some k → k ≠ 0 →
        Code1.lookup (Code1.check s now saveOk).1 r.id =
          some { r with timestamp := now + k }) := by
  constructor
  · intro s now dv t hnd hidxnd ht hen hdue hdv
    obtain ⟨-, hd, hw, hi⟩ := Code3.check_lookup_due s now dv t hnd hidxnd ht hen hdue hdv
    exact ⟨hd, hw, hi⟩
  · intro s now saveOk r k hnd hr h1 h2 h3 hk hk0
    exact Code1.check_lookup_recurring s now saveOk r k hnd hr h1 h2 h3 hk hk0

/-- A one-schedule store used to instantiate the scan theorems. -/
def c2exSchedule : Code3.Schedule :=
  { id := 1, channelId := "chan", message := "hi", createdBy := "u",
    createdAt := 0, enabled := true, type := .recurring,
    interval := some .daily, day := none, time := some ⟨9, 0⟩,
    intervalMs := none, nextRun := 100 }

/-- A `ScheduleManager` state holding only `c2exSchedule`. -/
def c2exSt3 : Code3.St :=
  { schedules := [c2exSchedule],
    channelSchedules := fun c => if c = "chan" then [1] else [],
    nextId := 2 }

/-- A one-reminder store used to instantiate the scan theorems. -/
def c2exReminder : Code1.Reminder :=
  { id := 1, userId := "u", channelId := "c", message := "m",
    timestamp := 100, interval := some 1000, isRecurring := true,
    createdAt := 0, triggered := false }

/-- A `ReminderManager` state holding only `c2exReminder`. -/
def c2exSt1 : Code1.St :=
  { reminders := [c2exReminder],
    userReminders := fun c => if c = "u" then [1] else [],
    nextId := 2 }

/-- Closed instance of C2 at a daily schedule and a recurring
reminder. -/
theorem c2_reschedule_policy_witness :
    Code3.lookup (Code3.check c2exSt3 100 (fun _ => true)).1 1 =
      some { c2exSchedule with nextRun := 86400100 } ∧
    Code1.lookup (Code1.check c2exSt1 100 true).1 1 =
      some { c2exReminder with timestamp := 1100 } :=
  ⟨((c2_reschedule_policy.1 c2exSt3 100 (fun _ => true) c2exSchedule
      (by decide)
      (fun c => by
        show (if c = ("chan" : String) then [1] else []).Nodup
        split
        · exact List.nodup_singleton 1
        · exact List.nodup_nil)
      (List.mem_singleton.2 rfl) rfl (by decide) rfl).1 rfl rfl),
   (c2_reschedule_policy.2 c2exSt1 100 true c2exReminder 1000
      (by decide) (List.mem_singleton.2 rfl) rfl (by decide) rfl rfl
      (by decide))⟩

/-! ## Claim C3 -/

/-- **C3.**  A `Once`-kind task whose `nextRun` is at or before the scan
time is both delivered exactly once by that scan (it appears once in the
scan's send/emit list) and removed from both store indexes, so a `list`
issued after the scan does not include it.  Stated for both managers
(code3 `type = 'once'` schedules with a succeeding send and a working
save in code1). -/
theorem c3_once_scan_delivers_and_removes :
    (∀ (s : Code3.St) (now : Nat) (dv : Nat → Bool) (t : Code3.Schedule),
        (s.schedules.map Code3.Schedule.id).Nodup →
        (∀ c, (s.channelSchedules c).Nodup) →
        t ∈ s.schedules → t.type = .once → t.enabled = true → t.nextRun ≤ now →
        dv t.id = true →
        ((Code3.delivered s now dv).map Code3.Schedule.id).count t.id = 1 ∧
        Code3.lookup (Code3.check s now dv).1 t.id = none ∧
        t.id ∉ ((Code3.check s now dv).1).channelSchedules t.channelId ∧
        t.id ∉ (Code3.listChannel (Code3.check s now dv).1 t.channelId).map
          Code3.Schedule.id) ∧
    (∀ (s : Code1.St) (now : Nat) (r : Code1.Reminder),
        (s.reminders.map Code1.Reminder.id).Nodup →
        (∀ c, (s.userReminders c).Nodup) →
        r ∈ s.reminders → r.isRecurring = false → r.triggered = false →
        r.timestamp ≤ now →
        (((Code1.check s now true).2).map Code1.Reminder.id).count r.id = 1 ∧
        Code1.lookup (Code1.check s now true).1 r.id = none ∧
        r.id ∉ ((Code1.check s now true).1).userReminders r.userId ∧
        r.id ∉ (Code1.listUser (Code1.check s now true).1 r.userId).map
          Code1.Reminder.id) := by
  constructor
  · intro s now dv t hnd hidxnd ht htype hen hdue hdv
    obtain ⟨honce, -, -, -⟩ := Code3.check_lookup_due s now dv t hnd hidxnd ht hen hdue hdv
    obtain ⟨hlk, hidx⟩ := honce htype
    exact ⟨Code3.delivered_count_one s now dv t hnd ht hen hdue hdv, hlk, hidx,
      Code3.listChannel_absent _ t.channelId t.id hlk⟩
  · intro s now r hnd hidxnd hr h3 h1 h2
    obtain ⟨hlk, hidx⟩ := Code1.check_once_removed s now r hnd hidxnd hr h3 h1 h2
    exact ⟨Code1.check_emitted_once s now r hnd hr h1 h2, hlk, hidx,
      Code1.listUser_absent _ r.userId r.id hlk⟩

/-- A one-shot schedule due in the past, directly injected. -/
def c3exSchedule : Code3.Schedule :=
  { id := 1, channelId := "chan", message := "ping", createdBy := "u",
    createdAt := 0, enabled := true, type := .once, interval := none,
    day := none, time := none, intervalMs := none, nextRun := 0 }

/-- A `ScheduleManager` state holding only `c3exSchedule`. -/
def c3exSt3 : Code3.St :=
  { schedules := [c3exSchedule],
    channelSchedules := fun c => if c = "chan" then [1] else [],
    nextId := 2 }

/-- A one-shot reminder due in the past, directly injected. -/
def c3exReminder : Code1.Reminder :=
  { id := 1, userId := "u", channelId := "c", message := "ping",
    timestamp := 0, interval := none, isRecurring := false,
    createdAt := 0, triggered := false }

/-- A `ReminderManager` state holding only `c3exReminder`. -/
def c3exSt1 : Code1.St :=
  { reminders := [c3exReminder],
    userReminders := fun c => if c = "u" then [1] else [],
    nextId := 2 }

/-- Closed instance of C3: the injected overdue one-shot task is
delivered once and gone from store and listing after a single tick. -/
theorem c3_once_scan_delivers_and_removes_witness :
    (((Code3.delivered c3exSt3 1 (fun _ => true)).map Code3.Schedule.id).count 1 = 1 ∧
     Code3.lookup (Code3.check c3exSt3 1 (fun _ => true)).1 1 = none ∧
     (1 : Nat) ∉ ((Code3.check c3exSt3 1 (fun _ => true)).1).channelSchedules "chan" ∧
     (1 : Nat) ∉ (Code3.listChannel (Code3.check c3exSt3 1 (fun _ => true)).1 "chan").map
       Code3.Schedule.id) ∧
    ((((Code1.check c3exSt1 1 true).2).map Code1.Reminder.id).count 1 = 1 ∧
     Code1.lookup (Code1.check c3exSt1 1 true).1 1 = none ∧
     (1 : Nat) ∉ ((Code1.check c3exSt1 1 true).1).userReminders "u" ∧
     (1 : Nat) ∉ (Code1.listUser (Code1.check c3exSt1 1 true).1 "u").map
       Code1.Reminder.id) :=
  ⟨c3_once_scan_delivers_and_removes.1 c3exSt3 1 (fun _ => true) c3exSchedule
      (by decide)
      (fun c => by
        show (if c = ("chan" : String) then [1] else []).Nodup
        split
        · exact List.nodup_singleton 1
        · exact List.nodup_nil)
      (List.mem_singleton.2 rfl) rfl rfl (by decide) rfl,
   c3_once_scan_delivers_and_removes.2 c3exSt1 1 c3exReminder
      (by decide)
      (fun c => by
        show (if c = ("u" : String) then [1] else []).Nodup
        split
        · exact List.nodup_singleton 1
        · exact List.nodup_nil)
      (List.mem_singleton.2 rfl) rfl rfl (by decide)⟩

/-! ## Claim C7 -/

/-- The `catch` block of `ScheduleManager.save` does not rethrow, so the
caller always sees success. -/
theorem save3_always_ok (so : Bool) : Code3.save so = Except.ok () := by
  cases so <;> rfl

/-- `ScheduleManager.create` is oblivious to the save outcome: the state
and the reported result are the same whether the write succeeds or
fails. -/
theorem create3_save_indep (s : Code3.St) (ch m ts cb : String) (now : Nat)
    (so : Bool) :
    Code3.create s ch m ts cb now so = Code3.create s ch m ts cb now true := by
  unfold Code3.create
  split
  · rfl
  · split
    · rfl
    · rw [save3_always_ok so]
      rfl

/-- `ScheduleManager.delete` is likewise oblivious to the save
outcome. -/
theorem delete3_save_indep (s : Code3.St) (sid : Nat) (u : String)
    (so : Bool) :
    Code3.delete s sid u so = Code3.delete s sid u true := by
  unfold Code3.delete
  split
  · rfl
  · split
    · rfl
    · rw [save3_always_ok so]
      rfl

/-- `ReminderManager.create` on a failing save: both maps are already
updated (the state equals the successful-save state) yet the caller sees
the rethrown IO error. -/
theorem create1_saveFail (s : Code1.St) (u ch m ts : String) (now : Nat)
    (pr : Code1.Plan)
    (hlim : (s.userReminders u).length < Code1.maxRemindersPerUser)
    (hp : Code1.parse now ts = .ok pr) :
    (Code1.create s u ch m ts now false).1 =
      (Code1.create s u ch m ts now true).1 ∧
    (Code1.create s u ch m ts now false).2 = .error .ioError := by
  unfold Code1.create
  rw [if_neg (Nat.not_le.2 hlim), if_neg (Nat.not_le.2 hlim)]
  simp only [hp]
  exact ⟨trivial, rfl⟩

/-- `ReminderManager.delete` on a failing save: the entry is already
gone from both maps, yet the caller sees the rethrown IO error. -/
theorem delete1_saveFail (s : Code1.St) (rid : Nat) (u : String)
    (r : Code1.Reminder) (hl : Code1.lookup s rid = some r)
    (hu : r.userId = u) :
    (Code1.delete s rid u false).1 = (Code1.delete s rid u true).1 ∧
    (Code1.delete s rid u false).2 = .error .ioError := by
  unfold Code1.delete
  simp only [hl]
  rw [if_neg (not_not_intro hu), if_neg (not_not_intro hu)]
  exact ⟨rfl, rfl⟩

/-- **C7 is false as stated; counterexample.**  In code1 a create whose
trailing save fails reports `IOError` to its caller even though the
in-memory mutation was already applied: the new reminder is present in
the returned state. -/
theorem c7_counterexample :
    (Code1.create Code1.initSt ("u1") ("c1") ("hello") ("in 5 minutes")
        0 false).2 = Except.error Err.ioError ∧
    Code1.lookup (Code1.create Code1.initSt ("u1") ("c1") ("hello")
        ("in 5 minutes") 0 false).1 1 =
      some { id := 1, userId := "u1", channelId := "c1", message := "hello",
             timestamp := 300000, interval := none, isRecurring := false,
             createdAt := 0, triggered := false } :=
  ⟨rfl, rfl⟩

/-- **C7 (amended).**  The claim holds for code3 only: its `save`
swallows write failures, so `create` and `delete` never report an IO
failure and behave identically whatever the write outcome.  In code1
`save` rethrows: a `create` past the limit check with an accepted time
string, or an authorised `delete` of an existing reminder, still applies
the full in-memory mutation (the state equals the successful-save
state) but reports `IOError` to its caller when the write fails. -/
theorem c7_save_failure_visibility :
    (∀ so : Bool, Code3.save so = Except.ok ()) ∧
    (∀ (s : Code3.St) (ch m ts cb : String) (now : Nat) (so : Bool),
        Code3.create s ch m ts cb now so = Code3.create s ch m ts cb now true) ∧
    (∀ (s : Code3.St) (sid : Nat) (u : String) (so : Bool),
        Code3.delete s sid u so = Code3.delete s sid u true) ∧
    (∀ (s : Code1.St) (u ch m ts : String) (now : Nat) (pr : Code1.Plan),
        (s.userReminders u).length < Code1.maxRemindersPerUser →
        Code1.parse now ts = .ok pr →
        (Code1.create s u ch m ts now false).1 =
          (Code1.create s u ch m ts now true).1 ∧
        (Code1.create s u ch m ts now false).2 = .error .ioError) ∧
    (∀ (s : Code1.St) (rid : Nat) (u : String) (r : Code1.Reminder),
        Code1.lookup s rid = some r → r.userId = u →
        (Code1.delete s rid u false).1 = (Code1.delete s rid u true).1 ∧
        (Code1.delete s rid u false).2 = .error .ioError) :=
  ⟨save3_always_ok,
   create3_save_indep,
   delete3_save_indep,
   fun s u ch m ts now pr hlim hp => create1_saveFail s u ch m ts now pr hlim hp,
   fun s rid u r hl hu => delete1_saveFail s rid u r hl hu⟩

/-- A reminder as produced by `create` on the empty store at time 0 with
input `"in 5 minutes"`. -/
def c7exReminder : Code1.Reminder :=
  { id := 1, userId := "u1", channelId := "c1", message := "hello",
    timestamp := 300000, interval := none, isRecurring := false,
    createdAt := 0, triggered := false }

/-- A `ReminderManager` state holding only `c7exReminder`. -/
def c7exSt1 : Code1.St :=
  { reminders := [c7exReminder],
    userReminders := fun c => if c = "u1" then [1] else [],
    nextId := 2 }

/-- Closed instance of the amended C7: a code3 create is unchanged by a
failing write, while code1's create and delete both surface the IO
error. -/
theorem c7_save_failure_visibility_witness :
    Code3.create Code3.initSt ("chan") ("hi") ("daily 9am") ("u") 0 false =
      Code3.create Code3.initSt ("chan") ("hi") ("daily 9am") ("u") 0 true ∧
    (Code1.create Code1.initSt ("u1") ("c1") ("hello") ("in 5 minutes")
        0 false).2 = Except.error Err.ioError ∧
    (Code1.delete c7exSt1 1 ("u1") false).2 = Except.error Err.ioError :=
  ⟨c7_save_failure_visibility.2.1 Code3.initSt ("chan") ("hi") ("daily 9am")
      ("u") 0 false,
   (c7_save_failure_visibility.2.2.2.1 Code1.initSt ("u1") ("c1") ("hello")
      ("in 5 minutes") 0 ⟨300000, none, false⟩ (by decide) rfl).2,
   (c7_save_failure_visibility.2.2.2.2 c7exSt1 1 ("u1") c7exReminder
      rfl rfl).2⟩

/-! ## Claim C8 -/

/-- **C8.**  A destination already holding the per-destination maximum
(20 schedules per channel in code3, 25 reminders per user in code1)
makes any further create for that destination fail with `LimitReached`
and leave the store untouched; the quantification over every
`timeString` (including unparseable ones) shows the limit check fires
before the parser is invoked, and the destination's count stays exactly
at the maximum. -/
theorem c8_limit_reached_fail_fast :
    (∀ (s : Code3.St) (ch m ts cb : String) (now : Nat) (so : Bool),
        (s.channelSchedules ch).length = Code3.maxSchedulesPerChannel →
        Code3.create s ch m ts cb now so = (s, .error .limitReached) ∧
        (((Code3.create s ch m ts cb now so).1.channelSchedules ch).length =
          Code3.maxSchedulesPerChannel)) ∧
    (∀ (s : Code1.St) (u ch m ts : String) (now : Nat) (so : Bool),
        (s.userReminders u).length = Code1.maxRemindersPerUser →
        Code1.create s u ch m ts now so = (s, .error .limitReached) ∧
        (((Code1.create s u ch m ts now so).1.userReminders u).length =
          Code1.maxRemindersPerUser)) := by
  constructor
  · intro s ch m ts cb now so h
    have hc : Code3.create s ch m ts cb now so = (s, .error .limitReached) := by
      unfold Code3.create
      rw [if_pos (le_of_eq h.symm)]
    exact ⟨hc, by rw [hc]; exact h⟩
  · intro s u ch m ts now so h
    have hc : Code1.create s u ch m ts now so = (s, .error .limitReached) := by
      unfold Code1.create
      rw [if_pos (le_of_eq h.symm)]
    exact ⟨hc, by rw [hc]; exact h⟩

/-- A `ScheduleManager` state whose channel index for `"chan"` is full
(20 ids). -/
def c8exSt3 : Code3.St :=
  { schedules := [],
    channelSchedules := fun c => if c = "chan" then List.range 20 else [],
    nextId := 21 }

/-- A `ReminderManager` state whose user index for `"u"` is full
(25 ids). -/
def c8exSt1 : Code1.St :=
  { reminders := [],
    userReminders := fun c => if c = "u" then List.range 25 else [],
    nextId := 26 }

/-- Closed instance of C8: on full destinations, create with an
unparseable time string still fails with `LimitReached` and returns the
store unchanged. -/
theorem c8_limit_reached_fail_fast_witness :
    Code3.create c8exSt3 ("chan") ("m") ("gibberish") ("u") 0 true =
      (c8exSt3, Except.error Err.limitReached) ∧
    Code1.create c8exSt1 ("u") ("c") ("m") ("gibberish") 0 true =
      (c8exSt1, Except.error Err.limitReached) :=
  ⟨(c8_limit_reached_fail_fast.1 c8exSt3 ("chan") ("m") ("gibberish") ("u")
      0 true rfl).1,
   (c8_limit_reached_fail_fast.2 c8exSt1 ("u") ("c") ("m") ("gibberish")
      0 true rfl).1⟩

end HD
